import Mathlib

/-!
Verification development for the PyNifly rig-reconciliation core
(`src/PyNifly/__init__.py` and `src/PyNifly/skeleton_hkx.py`).

Transforms are modelled over the rationals.  A Blender `mathutils.Matrix`
as used by this code is always an affine 4x4 matrix (bottom row 0 0 0 1),
modelled here as a 3x3 linear part plus a translation vector.
`Matrix.decompose` returns (translation, rotation, scale); we represent the
rotation by its 3x3 matrix (the quaternion and its matrix determine each
other), the scale by the column norms, computed with the exact rational
square root `Rat.sqrt` (exact whenever the squared norm is a perfect
square, which covers every orthonormal-rotation input).
-/

namespace PyNifly

/-- 3-component rational vector (models `mathutils.Vector`). -/
structure Vec3 where
  x : ℚ
  y : ℚ
  z : ℚ
deriving DecidableEq, Repr

def Vec3.add (u v : Vec3) : Vec3 := ⟨u.x + v.x, u.y + v.y, u.z + v.z⟩

def Vec3.smul (s : ℚ) (v : Vec3) : Vec3 := ⟨s * v.x, s * v.y, s * v.z⟩

def Vec3.neg (v : Vec3) : Vec3 := ⟨-v.x, -v.y, -v.z⟩

def Vec3.dot (u v : Vec3) : ℚ := u.x * v.x + u.y * v.y + u.z * v.z

def Vec3.zero : Vec3 := ⟨0, 0, 0⟩

/-- 3x3 rational matrix, row major: row i is (mi0, mi1, mi2). -/
structure Mat3 where
  m00 : ℚ
  m01 : ℚ
  m02 : ℚ
  m10 : ℚ
  m11 : ℚ
  m12 : ℚ
  m20 : ℚ
  m21 : ℚ
  m22 : ℚ
deriving DecidableEq, Repr

def Mat3.id : Mat3 := ⟨1, 0, 0, 0, 1, 0, 0, 0, 1⟩

def Mat3.mul (a b : Mat3) : Mat3 :=
  ⟨a.m00 * b.m00 + a.m01 * b.m10 + a.m02 * b.m20,
   a.m00 * b.m01 + a.m01 * b.m11 + a.m02 * b.m21,
   a.m00 * b.m02 + a.m01 * b.m12 + a.m02 * b.m22,
   a.m10 * b.m00 + a.m11 * b.m10 + a.m12 * b.m20,
   a.m10 * b.m01 + a.m11 * b.m11 + a.m12 * b.m21,
   a.m10 * b.m02 + a.m11 * b.m12 + a.m12 * b.m22,
   a.m20 * b.m00 + a.m21 * b.m10 + a.m22 * b.m20,
   a.m20 * b.m01 + a.m21 * b.m11 + a.m22 * b.m21,
   a.m20 * b.m02 + a.m21 * b.m12 + a.m22 * b.m22⟩

def Mat3.mulVec (a : Mat3) (v : Vec3) : Vec3 :=
  ⟨a.m00 * v.x + a.m01 * v.y + a.m02 * v.z,
   a.m10 * v.x + a.m11 * v.y + a.m12 * v.z,
   a.m20 * v.x + a.m21 * v.y + a.m22 * v.z⟩

def Mat3.transpose (a : Mat3) : Mat3 :=
  ⟨a.m00, a.m10, a.m20, a.m01, a.m11, a.m21, a.m02, a.m12, a.m22⟩

def Mat3.det (a : Mat3) : ℚ :=
  a.m00 * (a.m11 * a.m22 - a.m12 * a.m21)
  - a.m01 * (a.m10 * a.m22 - a.m12 * a.m20)
  + a.m02 * (a.m10 * a.m21 - a.m11 * a.m20)

def Mat3.smul (s : ℚ) (a : Mat3) : Mat3 :=
  ⟨s * a.m00, s * a.m01, s * a.m02,
   s * a.m10, s * a.m11, s * a.m12,
   s * a.m20, s * a.m21, s * a.m22⟩

/-- Matrix inverse via the adjugate.  Total: on a singular matrix the
division by the zero determinant yields zero entries (rational division
by zero is zero); the source only ever inverts invertible transforms. -/
def Mat3.inv (a : Mat3) : Mat3 :=
  Mat3.smul (1 / Mat3.det a)
    ⟨a.m11 * a.m22 - a.m12 * a.m21,
     a.m02 * a.m21 - a.m01 * a.m22,
     a.m01 * a.m12 - a.m02 * a.m11,
     a.m12 * a.m20 - a.m10 * a.m22,
     a.m00 * a.m22 - a.m02 * a.m20,
     a.m02 * a.m10 - a.m00 * a.m12,
     a.m10 * a.m21 - a.m11 * a.m20,
     a.m01 * a.m20 - a.m00 * a.m21,
     a.m00 * a.m11 - a.m01 * a.m10⟩

def Mat3.col0 (a : Mat3) : Vec3 := ⟨a.m00, a.m10, a.m20⟩

def Mat3.col1 (a : Mat3) : Vec3 := ⟨a.m01, a.m11, a.m21⟩

def Mat3.col2 (a : Mat3) : Vec3 := ⟨a.m02, a.m12, a.m22⟩

/-- Affine 4x4 matrix (models `mathutils.Matrix` with bottom row 0 0 0 1):
a 3x3 linear part and a translation column. -/
structure Mat4 where
  lin : Mat3
  transl : Vec3
deriving DecidableEq, Repr

def Mat4.identity : Mat4 := ⟨Mat3.id, Vec3.zero⟩

/-- Matrix product `a @ b`. -/
def Mat4.mul (a b : Mat4) : Mat4 :=
  ⟨Mat3.mul a.lin b.lin, Vec3.add (Mat3.mulVec a.lin b.transl) a.transl⟩

/-- `Matrix.inverted()` (affine inverse). -/
def Mat4.inverted (a : Mat4) : Mat4 :=
  ⟨Mat3.inv a.lin, Vec3.neg (Mat3.mulVec (Mat3.inv a.lin) a.transl)⟩

/-- `Matrix * scalar`: every element scaled (`decompose` never looks at the
bottom row, so scaling the affine part captures `(xf * sf).decompose()`). -/
def Mat4.smulAll (s : ℚ) (a : Mat4) : Mat4 :=
  ⟨Mat3.smul s a.lin, Vec3.smul s a.transl⟩

/-- `Matrix.to_scale()`: rational square roots of the squared column norms
of the 3x3 part (exact on every orthonormal-rotation-times-scale input). -/
def Mat4.toScale (a : Mat4) : Vec3 :=
  ⟨Rat.sqrt (Vec3.dot (Mat3.col0 a.lin) (Mat3.col0 a.lin)),
   Rat.sqrt (Vec3.dot (Mat3.col1 a.lin) (Mat3.col1 a.lin)),
   Rat.sqrt (Vec3.dot (Mat3.col2 a.lin) (Mat3.col2 a.lin))⟩

/-- The rotation extracted by `Matrix.decompose`: columns of the 3x3 part
divided by the extracted scale (division by a zero scale yields zero). -/
def Mat4.rotOf (a : Mat4) : Mat3 :=
  let s := Mat4.toScale a
  ⟨a.lin.m00 / s.x, a.lin.m01 / s.y, a.lin.m02 / s.z,
   a.lin.m10 / s.x, a.lin.m11 / s.y, a.lin.m12 / s.z,
   a.lin.m20 / s.x, a.lin.m21 / s.y, a.lin.m22 / s.z⟩

/-- `Matrix.decompose()`: (translation, rotation, scale). -/
def Mat4.decompose (a : Mat4) : Vec3 × Mat3 × Vec3 :=
  (a.transl, Mat4.rotOf a, Mat4.toScale a)

/-- `MatrixLocRotScale(loc, rot, scale)` (blender_defs wrapper around
`Matrix.LocRotScale`): rebuild the affine matrix whose 3x3 part has
column i of `rot` scaled by component i of `scale`. -/
def MatrixLocRotScale (loc : Vec3) (rot : Mat3) (scale : Vec3) : Mat4 :=
  ⟨⟨rot.m00 * scale.x, rot.m01 * scale.y, rot.m02 * scale.z,
    rot.m10 * scale.x, rot.m11 * scale.y, rot.m12 * scale.z,
    rot.m20 * scale.x, rot.m21 * scale.y, rot.m22 * scale.z⟩, loc⟩

/-- `apply_scale_xf(xf, sf)` (src line 144): decompose `xf * sf`, then
recompose with the original `xf.to_scale()` so the scale component is
untouched. -/
def apply_scale_xf (xf : Mat4) (sf : ℚ) : Mat4 :=
  let d := Mat4.decompose (Mat4.smulAll sf xf)
  MatrixLocRotScale d.1 d.2.1 (Mat4.toScale xf)

/-- `apply_scale_transl(xf, sf)` (src line 153): decompose, scale the
translation only, recompose. -/
def apply_scale_transl (xf : Mat4) (sf : ℚ) : Mat4 :=
  let d := Mat4.decompose xf
  MatrixLocRotScale (Vec3.smul sf d.1) d.2.1 d.2.2

/-- Modelled from the spec: `niflytools.MatNearEqual` (not under src/)
compares transforms "within tolerance" -- every element of the affine
parts must differ by less than `eps`. -/
def MatNearEqual (a b : Mat4) (eps : ℚ) : Bool :=
  decide (abs (a.lin.m00 - b.lin.m00) < eps) &&
  decide (abs (a.lin.m01 - b.lin.m01) < eps) &&
  decide (abs (a.lin.m02 - b.lin.m02) < eps) &&
  decide (abs (a.lin.m10 - b.lin.m10) < eps) &&
  decide (abs (a.lin.m11 - b.lin.m11) < eps) &&
  decide (abs (a.lin.m12 - b.lin.m12) < eps) &&
  decide (abs (a.lin.m20 - b.lin.m20) < eps) &&
  decide (abs (a.lin.m21 - b.lin.m21) < eps) &&
  decide (abs (a.lin.m22 - b.lin.m22) < eps) &&
  decide (abs (a.transl.x - b.transl.x) < eps) &&
  decide (abs (a.transl.y - b.transl.y) < eps) &&
  decide (abs (a.transl.z - b.transl.z) < eps)

/-- Modelled from the spec: default tolerance of `MatNearEqual`
(not under src/); the exact value only matters at concrete inputs. -/
def defaultEps : ℚ := 1 / 10000

/-- Pure-translation transform, used as concrete test data. -/
def Mat4.translation (x y z : ℚ) : Mat4 := ⟨Mat3.id, ⟨x, y, z⟩⟩

/-!  Data model (spec section 3 and the external interfaces of section 6).
The file-parsing collaborator supplies, per source node: name, parent name,
global transform, block-type tag, collision flag.  -/

/-- A node of a nif file or reference skeleton (SourceNode). -/
structure NifNode where
  name : String
  blockname : String
  parent : Option String
  xformToGlobal : Mat4
  collisionObject : Bool
deriving DecidableEq, Repr

/-- A loaded nif file or reference skeleton: nodes, root name, game id. -/
structure NifFile where
  nodes : List NifNode
  rootName : String
  game : String
deriving DecidableEq, Repr

def NifFile.findNode (f : NifFile) (n : String) : Option NifNode :=
  f.nodes.find? (fun nd => nd.name == n)

def NifFile.hasNode (f : NifFile) (n : String) : Bool :=
  (f.findNode n).isSome

/-- `nif.get_node_xform_to_global(name)` at the pynifly interface:
the node's global transform (identity when the node is absent). -/
def NifFile.getNodeXformToGlobal (f : NifFile) (n : String) : Mat4 :=
  ((f.findNode n).map NifNode.xformToGlobal).getD Mat4.identity

/-- A skinned shape at the interface consumed by the importer: SkinBinding
data plus the used-bone list.  `bindPosition`/`poseTransform` are the
blender_defs helpers `bind_position`/`pose_transform` (not under src/),
modelled from the spec as the shape's per-bone global bind position and
per-bone pose transform. -/
structure NiShape where
  name : String
  /-- `type(shape) == NiShape and shape.has_skin_instance`. -/
  isSkinnedNiShape : Bool
  /-- `shape.transform` (used only by unskinned statics). -/
  transform : Mat4
  hasGlobalToSkin : Bool
  globalToSkin : Mat4
  /-- `shape.bone_names` / `shape.get_used_bones()`. -/
  boneNames : List String
  /-- `shape.file.game`. -/
  fileGame : String
  /-- Modelled from the spec: `blender_defs.bind_position(shape, b)`. -/
  bindPosition : String → Mat4
  /-- Modelled from the spec: `blender_defs.pose_transform(shape, b)`. -/
  poseTransform : String → Mat4

/-- One Blender edit/data bone: name, parent by name, bind matrix. -/
structure EditBone where
  name : String
  parent : Option String
  matrixLocal : Mat4
deriving DecidableEq, Repr

/-- A Blender armature: bones (edit/data view), pose matrices keyed by
bone name, and the `PYN_TRANSFORM` custom property. -/
structure Armature where
  name : String
  bones : List EditBone
  poses : List (String × Mat4)
  pynTransform : Option Mat4
deriving DecidableEq, Repr

def Armature.findBone (a : Armature) (n : String) : Option EditBone :=
  a.bones.find? (fun b => b.name == n)

def Armature.hasBone (a : Armature) (n : String) : Bool :=
  (a.findBone n).isSome

def Armature.findPose (a : Armature) (n : String) : Option Mat4 :=
  (a.poses.find? (fun p => p.1 == n)).map Prod.snd

def Armature.hasPose (a : Armature) (n : String) : Bool :=
  (a.findPose n).isSome

/-- Overwrite the pose matrix of bone `n` (no-op on absent keys). -/
def Armature.setPose (a : Armature) (n : String) (m : Mat4) : Armature :=
  { a with poses := a.poses.map (fun p => if p.1 == n then (p.1, m) else p) }

/-- Assign bone `n`'s parent field (no-op on absent bones). -/
def Armature.setParent (a : Armature) (n : String) (p : Option String) : Armature :=
  { a with bones := a.bones.map (fun b => if b.name == n then { b with parent := p } else b) }

/-- Append a bone created by `create_bone` (blender_defs, not under src/;
modelled from the spec: the collaborator creates a bone carrying the
given transform, with no parent assigned). -/
def Armature.addBone (a : Armature) (n : String) (m : Mat4) : Armature :=
  { a with bones := a.bones ++ [⟨n, none, m⟩] }

/-- A Blender object (the imported shape's object): its world matrix. -/
structure BlenderObj where
  name : String
  matrixWorld : Mat4
deriving DecidableEq, Repr

/-- The NifImporter state and option flags that the transform code reads.
`blenderNameMap`/`nifNameMap` model `nif.dict` renaming (not under src/);
`gameRotFwd`/`gameRotInv` model the Convention Table
`game_rotations[game_axes[game]][0]` and `[1]` (blender_defs, not under
src/); `createBoneMat` models the conversion `blender_defs.create_bone`
applies to the transform it is handed; `isFaceboneFn` models
`niflytools.is_facebone`.  All are modelled from the spec as opaque
read-only tables. -/
structure ImportCtx where
  scale : ℚ
  createBones : Bool
  /-- `self.rename_bones or self.rename_bones_nift`. -/
  renameBones : Bool
  refSkel : Option NifFile
  nif : NifFile
  blenderNameMap : String → String
  nifNameMap : String → String
  gameRotFwd : String → Mat4
  gameRotInv : String → Mat4
  createBoneMat : Mat4 → String → ℚ → Mat4
  isFaceboneFn : String → Bool

/-- `NifImporter.blender_name` (src line 395). -/
def ImportCtx.blender_name (c : ImportCtx) (n : String) : String :=
  if c.renameBones then c.blenderNameMap n else n

/-- `NifImporter.nif_name` (src line 389). -/
def ImportCtx.nif_name (c : ImportCtx) (n : String) : String :=
  if c.renameBones then c.nifNameMap n else n

/-- `get_bone_global_xf(arma, bone_name, game, use_pose)` (src line 204). -/
def get_bone_global_xf (c : ImportCtx) (arma : Armature) (boneName : String)
    (game : String) (usePose : Bool) : Mat4 :=
  if usePose then
    Mat4.mul ((arma.findPose boneName).getD Mat4.identity) (c.gameRotInv game)
  else
    Mat4.mul (((arma.findBone boneName).map EditBone.matrixLocal).getD Mat4.identity)
      (c.gameRotInv game)

/-- `get_bone_xform(arma, bone_name, game, preserve_hierarchy, use_pose)`
(src line 213). -/
def get_bone_xform (c : ImportCtx) (arma : Armature) (boneName : String)
    (game : String) (preserveHierarchy : Bool) (usePose : Bool) : Mat4 :=
  let bonexf := get_bone_global_xf c arma boneName game usePose
  if preserveHierarchy then
    match (arma.findBone boneName).bind EditBone.parent with
    | some pname =>
        Mat4.mul (Mat4.inverted (get_bone_global_xf c arma pname game usePose)) bonexf
    | none => bonexf
  else bonexf

/-! ## Rig Compatibility Matcher: `find_compatible_arma` (src lines 931-978) -/

/-- The shape-side bind position compared by `find_compatible_arma`
(src line 955): `obj.matrix_world @ apply_scale_xf(bind_position(shape, b), scale)`. -/
def shapeBoneGlobal (c : ImportCtx) (obj : BlenderObj) (shape : NiShape)
    (b : String) : Mat4 :=
  Mat4.mul obj.matrixWorld (apply_scale_xf (shape.bindPosition b) c.scale)

/-- The armature-side bind position compared by `find_compatible_arma`
(src line 956). -/
def armaBoneGlobal (c : ImportCtx) (arma : Armature) (shape : NiShape)
    (blendName : String) : Mat4 :=
  get_bone_xform c arma blendName shape.fileGame false false

/-- The inner bone loop of `find_compatible_arma` (src lines 952-968),
returning the final (is_ok, offset_xf, offset_consistent).  The `break`
statement on an inconsistent offset ends the loop early. -/
def fcaLoop (c : ImportCtx) (obj : BlenderObj) (shape : NiShape) (arma : Armature) :
    List String → Bool → Option Mat4 → Bool → Bool × Option Mat4 × Bool
  | [], isOk, offsetXf, offsetConsistent => (isOk, offsetXf, offsetConsistent)
  | b :: rest, isOk, offsetXf, offsetConsistent =>
    let blendName := c.blender_name b
    if arma.hasBone blendName then
      let shapeBoneXf := shapeBoneGlobal c obj shape b
      let armaXf := armaBoneGlobal c arma shape blendName
      if MatNearEqual shapeBoneXf armaXf defaultEps then
        fcaLoop c obj shape arma rest isOk offsetXf offsetConsistent
      else
        -- src line 961: the would-be delta is `shape_bone_xf @ arma_xf`
        let thisOffset := Mat4.mul shapeBoneXf armaXf
        match offsetXf with
        | some off =>
          if MatNearEqual thisOffset off defaultEps then
            fcaLoop c obj shape arma rest false (some off) offsetConsistent
          else (false, some off, false)    -- offset_consistent = False; break
        | none => fcaLoop c obj shape arma rest false (some thisOffset) offsetConsistent
    else fcaLoop c obj shape arma rest isOk offsetXf offsetConsistent

/-- `NifImporter.find_compatible_arma(obj, armatures)` (src lines 931-978).
The source fetches the shape as `self.nodes_loaded[obj.name]`; it is
passed explicitly here.  Every path of the loop body returns, so only the
head armature is ever examined; an empty candidate list falls through to
`return None, None`. -/
def find_compatible_arma (c : ImportCtx) (obj : BlenderObj) (shape : NiShape)
    (armatures : List Armature) : Option Armature × Option Mat4 :=
  match armatures with
  | [] => (none, none)
  | arma :: _ =>
    let r := fcaLoop c obj shape arma shape.boneNames true none true
    if r.1 then (some arma, r.2.1)
    else
      -- src line 972: `if False and offset_consistent:` -- a constant-false
      -- guard; the CompatibleWithOffset return is dead code.
      (none, none)

/-! ## Shape Placement Calculator: `calc_obj_transform` (src lines 401-480) -/

/-- The reference-skeleton offset loop of `calc_obj_transform`
(src lines 433-449): state is (offset_xf, offset_consistent); `break` on
the first inconsistent bone. -/
def cotOffsetLoop (shape : NiShape) (skel : NifFile) (xf : Mat4) :
    List String → Option Mat4 → Bool → Option Mat4 × Bool
  | [], offsetXf, offsetConsistent => (offsetXf, offsetConsistent)
  | bn :: rest, offsetXf, offsetConsistent =>
    match skel.findNode bn with
    | some skelBone =>
      let skelBoneXf := skelBone.xformToGlobal
      let bindpos := shape.bindPosition bn
      let bindinshape := Mat4.mul xf bindpos
      let thisOffset := Mat4.mul skelBoneXf (Mat4.inverted bindinshape)
      match offsetXf with
      | none => cotOffsetLoop shape skel xf rest (some thisOffset) true
      | some off =>
        if MatNearEqual thisOffset off defaultEps then
          cotOffsetLoop shape skel xf rest (some off) offsetConsistent
        else (some off, false)    -- break
    | none => cotOffsetLoop shape skel xf rest offsetXf offsetConsistent

/-- The pose-consistency loop of `calc_obj_transform` (src lines 460-473):
state is (pose_xf, same); `break` when a bone's pose transform differs
from the first one by more than the loose epsilon 0.5. -/
def cotPoseLoop (shape : NiShape) :
    List String → Option Mat4 → Option Mat4 × Bool
  | [], poseXf => (poseXf, true)
  | b :: rest, poseXf =>
    let boneXf := shape.poseTransform b
    match poseXf with
    | some p =>
      if MatNearEqual p boneXf (1 / 2) then cotPoseLoop shape rest (some p)
      else (some p, false)    -- same = False; break
    | none => cotPoseLoop shape rest (some boneXf)

/-- `NifImporter.calc_obj_transform(the_shape, scale_factor)` (src lines
401-480).  Returns `none` exactly where the Python raises: when the pose
fallback runs with no used bones, `xf = xf @ pose_xf` composes with
`None` and raises a TypeError. -/
def calc_obj_transform (c : ImportCtx) (shape : NiShape) (scaleFactor : ℚ) :
    Option Mat4 :=
  if !shape.isSkinnedNiShape then
    some (apply_scale_xf shape.transform scaleFactor)
  else
    let s1 : Mat4 × Bool :=
      if shape.hasGlobalToSkin then (Mat4.inverted shape.globalToSkin, true)
      else (Mat4.identity, false)
    let xf1 := s1.1
    let s2 : Option Mat4 × Bool :=
      match c.refSkel with
      | some skel =>
        if c.createBones then cotOffsetLoop shape skel xf1 shape.boneNames none s1.2
        else (none, s1.2)
      | none => (none, s1.2)
    let xf2 :=
      if s2.2 && s2.1.isSome then Mat4.mul xf1 (s2.1.getD Mat4.identity) else xf1
    if s2.2 then some (apply_scale_xf xf2 scaleFactor)
    else
      let p := cotPoseLoop shape shape.boneNames none
      if p.2 then
        match p.1 with
        | some poseXf => some (apply_scale_xf (Mat4.inverted (Mat4.mul xf2 poseXf)) scaleFactor)
        | none => none    -- Python: `xf @ None` raises TypeError
      else some (apply_scale_xf xf2 scaleFactor)

/-! ## Rig Builder (src lines 882-1127) -/

/-- `NifImporter.calc_skin_transform(arma, obj)` (src lines 882-912).
`eval(arma['PYN_TRANSFORM'])` round-trips the stored matrix; the
mismatch warning is a log side effect and is dropped. Returns the skin
transform together with the (possibly updated) armature. -/
def calc_skin_transform (arma : Armature) (obj : Option BlenderObj) :
    Mat4 × Armature :=
  match obj with
  | none => ((arma.pynTransform.getD Mat4.identity), arma)
  | some o =>
    match arma.pynTransform with
    | none => (o.matrixWorld, { arma with pynTransform := some o.matrixWorld })
    | some _ => (o.matrixWorld, arma)

/-- The bind matrix handed to `create_bone` by `add_bone_to_arma`: the
reference skeleton's global bind position when extending bones
(src lines 998-1002), else the nif node's own global transform combined
with the rig-level skin transform (src lines 1004-1010). -/
def addBoneMat (c : ImportCtx) (arma : Armature) (nifname : String) : Mat4 :=
  if c.createBones && (match c.refSkel with
                       | some skel => skel.hasNode nifname
                       | none => false) then
    c.createBoneMat (match c.refSkel with
                     | some skel => skel.getNodeXformToGlobal nifname
                     | none => Mat4.identity) c.nif.game c.scale
  else
    c.createBoneMat
      (Mat4.mul (apply_scale_transl (calc_skin_transform arma none).1 (1 / c.scale))
        (c.nif.getNodeXformToGlobal nifname)) c.nif.game c.scale

/-- `NifImporter.add_bone_to_arma(arma, bone_name, nifname)` (src lines
981-1012).  Returns the armature and the created bone's name (`None`
when the bone already exists). -/
def add_bone_to_arma (c : ImportCtx) (arma : Armature) (boneName nifname : String) :
    Armature × Option String :=
  if arma.hasBone boneName then (arma, none)
  else (arma.addBone boneName (addBoneMat c arma nifname), some boneName)

/-- `get_pose_blender_xf(node_xf, game, scale_factor)` (src line 198). -/
def get_pose_blender_xf (c : ImportCtx) (nodeXf : Mat4) (game : String)
    (scaleFactor : ℚ) : Mat4 :=
  Mat4.mul (apply_scale_transl nodeXf scaleFactor) (c.gameRotFwd game)

/-- One iteration of the `set_bone_poses` loop body (src lines 1020-1032).
The computed `pb_xf` (line 1025) is dead in the source; the pose matrix
written is `get_pose_blender_xf(bone_xf, self.nif.game, self.scale)`. -/
def sbpStep (c : ImportCtx) (nif : NifFile) (arma : Armature)
    (p : String × String) : Armature :=
  match nif.findNode p.1 with
  | some nifBone =>
    if arma.hasPose p.2 then
      if nifBone.blockname == "NiNode" && nifBone.name != nif.rootName then
        arma.setPose p.2 (get_pose_blender_xf c nifBone.xformToGlobal c.nif.game c.scale)
      else arma
    else arma
  | none => arma

/-- `NifImporter.set_bone_poses(arma, nif, bonelist)` (src lines 1015-1033). -/
def set_bone_poses (c : ImportCtx) (arma : Armature) (nif : NifFile)
    (bonelist : List (String × String)) : Armature :=
  bonelist.foldl (sbpStep c nif) arma

/-- `NifImporter.set_all_bone_poses(arma, nif)` (src lines 1036-1041). -/
def set_all_bone_poses (c : ImportCtx) (arma : Armature) (nif : NifFile) : Armature :=
  set_bone_poses c arma nif (arma.bones.map (fun b => (c.nif_name b.name, b.name)))

/-- State of the `connect_armature` loop (src lines 1061-1118): the
armature, the unprocessed suffix of the growing `bones_to_parent` list,
the `new_bones` list of (parentnifname, parentname) in creation order,
and the collision-node names. -/
structure ConnectState where
  arma : Armature
  queue : List String
  newBones : List (String × String)
  collisions : List String
deriving Repr

/-- The parent lookup in the nif hierarchy (src lines 1075-1089): the
bone's node's parent, unless it is the file root.  Returns
(blender name, nif name). -/
def findParentFromNif (c : ImportCtx) (nifname : String) : Option (String × String) :=
  match c.nif.findNode nifname with
  | some thisnode =>
    match thisnode.parent with
    | some pname =>
      if pname != c.nif.rootName then some (c.blender_name pname, pname) else none
    | none => none
  | none => none

/-- The parent fallback from the reference skeleton (src lines
1092-1102), taken when no parent was found in the nif, bones are being
created and the bone is not a face bone. -/
def findParentFromSkel (c : ImportCtx) (bonename nifname : String) :
    Option (String × String) :=
  if c.createBones && !c.isFaceboneFn bonename then
    match c.refSkel with
    | some skel =>
      if skel.hasNode nifname && nifname != skel.rootName then
        match (skel.findNode nifname).bind NifNode.parent with
        | some pname =>
          if pname != skel.rootName then some (c.blender_name pname, pname) else none
        | none => none
      else none
    | none => none
  else none

/-- The parent name (blender name, nif name) the loop body discovers for
`bonename`: first from the nif hierarchy, else from the reference
skeleton. -/
def findParentNames (c : ImportCtx) (bonename : String) : Option (String × String) :=
  let nifname := c.nif_name bonename
  match findParentFromNif c nifname with
  | some p => some p
  | none => findParentFromSkel c bonename nifname

/-- The collision bookkeeping of the loop body (src lines 1077-1080):
`collisions.add(thisnode)` is a set insertion. -/
def collectCollision (c : ImportCtx) (bonename : String) (cols : List String) :
    List String :=
  match c.nif.findNode (c.nif_name bonename) with
  | some thisnode =>
    if thisnode.collisionObject && !cols.contains thisnode.name then
      cols ++ [thisnode.name]
    else cols
  | none => cols

/-- One iteration of the `connect_armature` while loop (src lines
1066-1118) processing `bonename`; the returned list is what the
iteration appends to `bones_to_parent`. -/
def connectStep (c : ImportCtx) (arma : Armature) (newBones : List (String × String))
    (cols : List String) (bonename : String) :
    Armature × List (String × String) × List String × List String :=
  match arma.findBone bonename with
  | none => (arma, newBones, cols, [])    -- unreachable: queue names are armature bones
  | some armaBone =>
    if armaBone.parent.isSome then (arma, newBones, cols, [])
    else
      let cols' := collectCollision c bonename cols
      match findParentNames c bonename with
      | none => (arma, newBones, cols', [])
      | some (parentname, parentnifname) =>
        if !arma.hasBone parentname then
          let created := add_bone_to_arma c arma parentname parentnifname
          ((created.1.setParent bonename created.2),
           newBones ++ [(parentnifname, parentname)], cols', [parentname])
        else
          (arma.setParent bonename (some parentname), newBones, cols', [])

/-- The `connect_armature` while loop, fuelled: each recursive call
consumes one unit of fuel per processed queue entry.  `none` means the
fuel ran out (the fuel chosen by `connect_armature` is proved
sufficient). -/
def connectLoop (c : ImportCtx) : Nat → ConnectState → Option ConnectState
  | 0, _ => none
  | fuel + 1, st =>
    match st.queue with
    | [] => some st
    | bonename :: rest =>
      let r := connectStep c st.arma st.newBones st.collisions bonename
      connectLoop c fuel ⟨r.1, rest ++ r.2.2.2, r.2.1, r.2.2.1⟩

/-- Names that can ever be appended to `bones_to_parent`: the
blender-translated parent names occurring in the nif and in the
reference skeleton. -/
def parentNameUniverse (c : ImportCtx) : List String :=
  (c.nif.nodes.filterMap NifNode.parent).map c.blender_name ++
  (match c.refSkel with
   | some skel => (skel.nodes.filterMap NifNode.parent).map c.blender_name
   | none => [])

/-- Loop measure: queue length plus the number of universe names not yet
present in the armature. -/
def connectMeasure (c : ImportCtx) (st : ConnectState) : Nat :=
  st.queue.length + ((parentNameUniverse c).filter (fun n => !st.arma.hasBone n)).length

/-- `NifImporter.connect_armature(arma)` (src lines 1044-1127): run the
growing-queue pass seeded with the armature's bone names, then republish
all bone poses (`set_all_bone_poses`, src line 1122).  Returns the final
armature, the `new_bones` creation list, and the collision names; `none`
would mean non-termination (ruled out by the termination theorem). -/
def connect_armature (c : ImportCtx) (arma : Armature) :
    Option (Armature × List (String × String) × List String) :=
  let st0 : ConnectState := ⟨arma, arma.bones.map EditBone.name, [], []⟩
  (connectLoop c (connectMeasure c st0 + 1) st0).map
    (fun st => (set_all_bone_poses c st.arma c.nif, st.newBones, st.collisions))

/-! ## Skeleton exporter (src/PyNifly/skeleton_hkx.py) -/

/-- Python `range(lo, hi)` over integers. -/
def pyRange (lo hi : Int) : List Int :=
  (List.range (hi - lo).toNat).map (fun i => lo + (i : Int))

/-- `ExportSkel.write_parentindices(skel, bones)` (skeleton_hkx.py lines
222-224): the text written as the `parentIndices` hkparam,
`" ".join(str(x) for x in range(-1, len(bones)-1))`.  The bones' parent
fields are never consulted. -/
def write_parentindices (bones : List EditBone) : String :=
  String.intercalate " " ((pyRange (-1) ((bones.length : Int) - 1)).map toString)

/-! ## Helper lemmas -/

lemma ratSqrt_mul_self (a : ℚ) (h : 0 ≤ a) : Rat.sqrt (a * a) = a := by
  rw [Rat.sqrt_eq]
  exact abs_of_nonneg h

lemma find?_name_append_self (l : List EditBone) (n : String) (m : Mat4) :
    ((l ++ [(⟨n, none, m⟩ : EditBone)]).find? (fun b => b.name == n)).isSome = true := by
  induction l with
  | nil => simp [List.find?]
  | cons b t ih =>
    by_cases h : b.name == n
    · simp [List.find?, h]
    · simp only [List.cons_append, List.find?]
      simp only [h]
      exact ih

lemma hasBone_addBone_self (a : Armature) (n : String) (m : Mat4) :
    (a.addBone n m).hasBone n = true := by
  simp only [Armature.hasBone, Armature.findBone, Armature.addBone]
  exact find?_name_append_self a.bones n m

lemma add_bone_to_arma_of_hasBone (c : ImportCtx) (arma : Armature) (bn nifn : String)
    (h : arma.hasBone bn = true) :
    add_bone_to_arma c arma bn nifn = (arma, none) := by
  unfold add_bone_to_arma
  simp [h]

lemma add_bone_to_arma_fst_hasBone (c : ImportCtx) (arma : Armature) (bn nifn : String) :
    (add_bone_to_arma c arma bn nifn).1.hasBone bn = true := by
  by_cases h : arma.hasBone bn = true
  · simp [add_bone_to_arma, h]
  · simp only [Bool.not_eq_true] at h
    simp [add_bone_to_arma, h, hasBone_addBone_self]

/-! ## C7 -/

/-- C7: `ensureBone` idempotence.  After one `add_bone_to_arma` call, a
second call with the same arguments returns the armature unchanged
(same bones, bind matrices and poses) and `None`:  the bone-name
membership test at the top of the function (src line 993) short-circuits. -/
theorem add_bone_to_arma_idempotent (c : ImportCtx) (arma : Armature) (bn nifn : String) :
    add_bone_to_arma c (add_bone_to_arma c arma bn nifn).1 bn nifn =
      ((add_bone_to_arma c arma bn nifn).1, none) :=
  add_bone_to_arma_of_hasBone c _ bn nifn (add_bone_to_arma_fst_hasBone c arma bn nifn)

/-! ## C8 -/

lemma decompose_MLRS (l : Vec3) (r : Mat3) (sc : Vec3)
    (horth : Mat3.mul (Mat3.transpose r) r = Mat3.id)
    (hx : 0 < sc.x) (hy : 0 < sc.y) (hz : 0 < sc.z) :
    Mat4.decompose (MatrixLocRotScale l r sc) = (l, r, sc) := by
  obtain ⟨lx, ly, lz⟩ := l
  obtain ⟨r00, r01, r02, r10, r11, r12, r20, r21, r22⟩ := r
  obtain ⟨sx, sy, sz⟩ := sc
  simp only [Mat3.mul, Mat3.transpose, Mat3.id, Mat3.mk.injEq] at horth
  obtain ⟨h00, -, -, -, h11, -, -, -, h22⟩ := horth
  simp only at hx hy hz
  have hsx : Rat.sqrt (r00 * sx * (r00 * sx) + r10 * sx * (r10 * sx) + r20 * sx * (r20 * sx)) = sx := by
    have e : r00 * sx * (r00 * sx) + r10 * sx * (r10 * sx) + r20 * sx * (r20 * sx) = sx * sx := by
      linear_combination (sx * sx) * h00
    rw [e, ratSqrt_mul_self sx (le_of_lt hx)]
  have hsy : Rat.sqrt (r01 * sy * (r01 * sy) + r11 * sy * (r11 * sy) + r21 * sy * (r21 * sy)) = sy := by
    have e : r01 * sy * (r01 * sy) + r11 * sy * (r11 * sy) + r21 * sy * (r21 * sy) = sy * sy := by
      linear_combination (sy * sy) * h11
    rw [e, ratSqrt_mul_self sy (le_of_lt hy)]
  have hsz : Rat.sqrt (r02 * sz * (r02 * sz) + r12 * sz * (r12 * sz) + r22 * sz * (r22 * sz)) = sz := by
    have e : r02 * sz * (r02 * sz) + r12 * sz * (r12 * sz) + r22 * sz * (r22 * sz) = sz * sz := by
      linear_combination (sz * sz) * h22
    rw [e, ratSqrt_mul_self sz (le_of_lt hz)]
  have hx' : sx ≠ 0 := ne_of_gt hx
  have hy' : sy ≠ 0 := ne_of_gt hy
  have hz' : sz ≠ 0 := ne_of_gt hz
  have hscale :
      Mat4.toScale (MatrixLocRotScale ⟨lx, ly, lz⟩ ⟨r00, r01, r02, r10, r11, r12, r20, r21, r22⟩
        ⟨sx, sy, sz⟩) = ⟨sx, sy, sz⟩ := by
    simp only [Mat4.toScale, MatrixLocRotScale, Mat3.col0, Mat3.col1, Mat3.col2, Vec3.dot]
    rw [hsx, hsy, hsz]
  have hrot :
      Mat4.rotOf (MatrixLocRotScale ⟨lx, ly, lz⟩ ⟨r00, r01, r02, r10, r11, r12, r20, r21, r22⟩
        ⟨sx, sy, sz⟩) = ⟨r00, r01, r02, r10, r11, r12, r20, r21, r22⟩ := by
    simp only [Mat4.rotOf, hscale]
    simp only [MatrixLocRotScale, Mat3.mk.injEq]
    refine ⟨?_, ?_, ?_, ?_, ?_, ?_, ?_, ?_, ?_⟩ <;>
      first
      | exact mul_div_cancel_right₀ _ hx'
      | exact mul_div_cancel_right₀ _ hy'
      | exact mul_div_cancel_right₀ _ hz'
  simp only [Mat4.decompose]
  rw [hrot, hscale]
  simp only [MatrixLocRotScale]

/-- C8: `applyScaleToTranslation` frame property.  For every transform
with a well-defined decomposition (orthonormal rotation, positive
scale), `apply_scale_transl(T, s)` has the same rotation component and
the same scale component as `T`, and its translation is `T`'s
translation scaled by `s`.  (`Matrix.decompose` is modelled with the
rotation as its 3x3 matrix.) -/
theorem apply_scale_transl_frame (l : Vec3) (r : Mat3) (sc : Vec3) (s : ℚ)
    (horth : Mat3.mul (Mat3.transpose r) r = Mat3.id)
    (hx : 0 < sc.x) (hy : 0 < sc.y) (hz : 0 < sc.z) :
    Mat4.decompose (apply_scale_transl (MatrixLocRotScale l r sc) s) =
      (Vec3.smul s l, r, sc) ∧
    Mat4.decompose (MatrixLocRotScale l r sc) = (l, r, sc) := by
  have h1 := decompose_MLRS l r sc horth hx hy hz
  have h2 := decompose_MLRS (Vec3.smul s l) r sc horth hx hy hz
  refine ⟨?_, h1⟩
  unfold apply_scale_transl
  rw [h1]
  exact h2

def w8rot : Mat3 := ⟨0, -1, 0, 1, 0, 0, 0, 0, 1⟩

def w8loc : Vec3 := ⟨1, 2, 3⟩

def w8sc : Vec3 := ⟨2, 3, 5⟩

/-- Witness for C8 at a 90-degree z-rotation, scale (2,3,5), factor 7. -/
theorem apply_scale_transl_frame_witness :
    (Mat3.mul (Mat3.transpose w8rot) w8rot = Mat3.id ∧
      0 < w8sc.x ∧ 0 < w8sc.y ∧ 0 < w8sc.z) ∧
    (Mat4.decompose (apply_scale_transl (MatrixLocRotScale w8loc w8rot w8sc) 7) =
        (Vec3.smul 7 w8loc, w8rot, w8sc) ∧
      Mat4.decompose (MatrixLocRotScale w8loc w8rot w8sc) = (w8loc, w8rot, w8sc)) :=
  ⟨⟨by norm_num [w8rot, Mat3.mul, Mat3.transpose, Mat3.id], by norm_num [w8sc],
    by norm_num [w8sc], by norm_num [w8sc]⟩,
   apply_scale_transl_frame w8loc w8rot w8sc 7
     (by norm_num [w8rot, Mat3.mul, Mat3.transpose, Mat3.id])
     (by norm_num [w8sc]) (by norm_num [w8sc]) (by norm_num [w8sc])⟩

/-! ## Evaluation lemmas for pure-translation transforms -/

lemma ratSqrt_one : Rat.sqrt 1 = 1 := by
  have h : (1 : ℚ) = 1 * 1 := by norm_num
  rw [h, Rat.sqrt_eq]
  norm_num

lemma smulAll_one (a : Mat4) : Mat4.smulAll 1 a = a := by
  simp [Mat4.smulAll, Mat3.smul, Vec3.smul]

lemma toScale_translation (x y z : ℚ) :
    Mat4.toScale (Mat4.translation x y z) = ⟨1, 1, 1⟩ := by
  simp [Mat4.toScale, Mat4.translation, Mat3.col0, Mat3.col1, Mat3.col2, Vec3.dot, Mat3.id,
    ratSqrt_one]

lemma rotOf_translation (x y z : ℚ) :
    Mat4.rotOf (Mat4.translation x y z) = Mat3.id := by
  simp only [Mat4.rotOf, toScale_translation]
  simp [Mat4.translation, Mat3.id, Mat3.mk.injEq]

lemma decompose_translation (x y z : ℚ) :
    Mat4.decompose (Mat4.translation x y z) = (⟨x, y, z⟩, Mat3.id, ⟨1, 1, 1⟩) := by
  simp only [Mat4.decompose, toScale_translation, rotOf_translation]
  rfl

lemma MLRS_id_ones (l : Vec3) : MatrixLocRotScale l Mat3.id ⟨1, 1, 1⟩ = ⟨Mat3.id, l⟩ := by
  simp [MatrixLocRotScale, Mat3.id, Mat3.mk.injEq]

lemma apply_scale_xf_translation_one (x y z : ℚ) :
    apply_scale_xf (Mat4.translation x y z) 1 = Mat4.translation x y z := by
  rw [apply_scale_xf, smulAll_one, decompose_translation]
  simp only [toScale_translation]
  exact MLRS_id_ones _

lemma apply_scale_transl_translation (x y z s : ℚ) :
    apply_scale_transl (Mat4.translation x y z) s = Mat4.translation (s * x) (s * y) (s * z) := by
  rw [apply_scale_transl, decompose_translation]
  simp only [Vec3.smul]
  exact MLRS_id_ones _

lemma Mat3_inv_id : Mat3.inv Mat3.id = Mat3.id := by
  norm_num [Mat3.inv, Mat3.det, Mat3.smul, Mat3.id, Mat3.mk.injEq]

lemma mulVec_id (v : Vec3) : Mat3.mulVec Mat3.id v = v := by
  simp [Mat3.mulVec, Mat3.id]

lemma Mat3_mul_id_left (a : Mat3) : Mat3.mul Mat3.id a = a := by
  simp [Mat3.mul, Mat3.id]

lemma Mat3_mul_id_right (a : Mat3) : Mat3.mul a Mat3.id = a := by
  simp [Mat3.mul, Mat3.id]

lemma inverted_translation (x y z : ℚ) :
    Mat4.inverted (Mat4.translation x y z) = Mat4.translation (-x) (-y) (-z) := by
  simp [Mat4.inverted, Mat4.translation, Mat3_inv_id, mulVec_id, Vec3.neg]

lemma mul_translation (a b c x y z : ℚ) :
    Mat4.mul (Mat4.translation a b c) (Mat4.translation x y z) =
      Mat4.translation (x + a) (y + b) (z + c) := by
  simp [Mat4.mul, Mat4.translation, Mat3_mul_id_left, mulVec_id, Vec3.add]

lemma identity_eq_translation : Mat4.identity = Mat4.translation 0 0 0 := rfl

lemma inverted_identity : Mat4.inverted Mat4.identity = Mat4.identity := by
  rw [identity_eq_translation, inverted_translation]
  norm_num [Mat4.translation, Vec3.mk.injEq]

lemma mul_identity_left (a : Mat4) : Mat4.mul Mat4.identity a = a := by
  simp [Mat4.mul, Mat4.identity, Mat3_mul_id_left, mulVec_id, Vec3.add, Vec3.zero]

lemma mul_identity_right (a : Mat4) : Mat4.mul a Mat4.identity = a := by
  simp [Mat4.mul, Mat4.identity, Mat3_mul_id_right, Mat3.mulVec, Vec3.add, Vec3.zero]

lemma apply_scale_xf_identity_one : apply_scale_xf Mat4.identity 1 = Mat4.identity := by
  rw [identity_eq_translation, apply_scale_xf_translation_one]

lemma apply_scale_transl_identity (s : ℚ) :
    apply_scale_transl Mat4.identity s = Mat4.identity := by
  rw [identity_eq_translation, apply_scale_transl_translation]
  norm_num [Mat4.translation, Vec3.mk.injEq]

/-! ## C9 -/

/-- C9: a skinned shape with no global-to-skin transform and an empty
used-bone list drives `calc_obj_transform` into the pose-consistency
step with `pose_xf = None` and `same = True`, so `xf = xf @ pose_xf`
(src line 476) composes a matrix with `None` and raises a TypeError
(modelled as `none`) instead of returning an identity placement. -/
theorem calc_obj_transform_empty_bones_raises (c : ImportCtx) (shape : NiShape) (sf : ℚ)
    (h1 : shape.isSkinnedNiShape = true)
    (h2 : shape.hasGlobalToSkin = false)
    (h3 : shape.boneNames = []) :
    calc_obj_transform c shape sf = none := by
  unfold calc_obj_transform
  rw [h1, h2, h3]
  cases hr : c.refSkel with
  | none => simp [cotPoseLoop]
  | some skel => cases hc : c.createBones <;> simp [cotOffsetLoop, cotPoseLoop]

def w9shape : NiShape :=
  ⟨"w9", true, Mat4.identity, false, Mat4.identity, [], "SKYRIM",
   fun _ => Mat4.identity, fun _ => Mat4.identity⟩

def w9ctx : ImportCtx :=
  ⟨1, true, false, none, ⟨[], "Root", "SKYRIM"⟩,
   id, id, fun _ => Mat4.identity, fun _ => Mat4.identity,
   fun m _ _ => m, fun _ => false⟩

/-- Witness for C9 on a concrete skinned shape with no bones. -/
theorem calc_obj_transform_empty_bones_raises_witness :
    (w9shape.isSkinnedNiShape = true ∧ w9shape.hasGlobalToSkin = false ∧
      w9shape.boneNames = []) ∧
    calc_obj_transform w9ctx w9shape 1 = none :=
  ⟨⟨rfl, rfl, rfl⟩,
   calc_obj_transform_empty_bones_raises w9ctx w9shape 1 rfl rfl rfl⟩

/-! ## C10 -/

lemma pyRange_neg_one (n : ℕ) :
    pyRange (-1) ((n : Int) - 1) = (List.range n).map (fun i => (i : Int) - 1) := by
  unfold pyRange
  have h1 : ((n : Int) - 1 - (-1)).toNat = n := by omega
  rw [h1]
  apply List.map_congr_left
  intro a _
  omega

/-- C10: `write_parentindices` always writes the fixed chain
"-1 0 1 ... n-2" for an n-bone selection, whatever the bones' parent
fields are (they are never read). -/
theorem write_parentindices_fixed_chain (bones : List EditBone) :
    write_parentindices bones =
      String.intercalate " "
        ((List.range bones.length).map (fun i => toString ((i : Int) - 1))) := by
  unfold write_parentindices
  rw [pyRange_neg_one, List.map_map]
  rfl

/-! ## C2 -/

lemma cotOffsetLoop_all_missing (shape : NiShape) (skel : NifFile) (xf : Mat4)
    (l : List String) (off : Option Mat4) (cons : Bool)
    (h : ∀ bn ∈ l, skel.findNode bn = none) :
    cotOffsetLoop shape skel xf l off cons = (off, cons) := by
  revert h
  induction l generalizing off cons with
  | nil => intro _; rfl
  | cons b t ih =>
    intro h
    have hb : skel.findNode b = none := h b (by simp)
    simp only [cotOffsetLoop, hb]
    exact ih off cons (fun bn hbn => h bn (by simp [hbn]))

/-- C2 (amended): when the skin binding carries a global-to-skin
transform, `calc_obj_transform` starts from the inverse of that
transform, but the algorithm does not stop there: the return value is
the scaled inverse exactly when the reference-skeleton offset scan
contributes nothing (create_bones disabled, no reference skeleton, or no
used bone present in it); otherwise the scan's consistent offset is
composed on top of the inverse (see the counterexample). -/
theorem calc_obj_transform_global_to_skin (c : ImportCtx) (shape : NiShape) (sf : ℚ)
    (h1 : shape.isSkinnedNiShape = true)
    (h2 : shape.hasGlobalToSkin = true)
    (h3 : c.createBones = false ∨ c.refSkel = none ∨
          ∃ skel, c.refSkel = some skel ∧ ∀ bn ∈ shape.boneNames, skel.findNode bn = none) :
    calc_obj_transform c shape sf =
      some (apply_scale_xf (Mat4.inverted shape.globalToSkin) sf) := by
  rcases h3 with hcb | hrs | ⟨skel, hrs, hall⟩
  · cases hr : c.refSkel with
    | none => simp [calc_obj_transform, h1, h2, hr]
    | some skel => simp [calc_obj_transform, h1, h2, hr, hcb]
  · simp [calc_obj_transform, h1, h2, hrs]
  · have hl := cotOffsetLoop_all_missing shape skel (Mat4.inverted shape.globalToSkin)
      shape.boneNames none true hall
    cases hc : c.createBones with
    | false => simp [calc_obj_transform, h1, h2, hrs, hc]
    | true => simp [calc_obj_transform, h1, h2, hrs, hc, hl]

def w2shape : NiShape :=
  ⟨"w2", true, Mat4.identity, true, Mat4.translation 1 2 3, [], "SKYRIM",
   fun _ => Mat4.identity, fun _ => Mat4.identity⟩

/-- Witness for C2 with create_bones off: the scaled inverse is returned. -/
theorem calc_obj_transform_global_to_skin_witness :
    (w2shape.isSkinnedNiShape = true ∧ w2shape.hasGlobalToSkin = true) ∧
    calc_obj_transform w9ctx w2shape 1 =
      some (apply_scale_xf (Mat4.inverted w2shape.globalToSkin) 1) :=
  ⟨⟨rfl, rfl⟩,
   calc_obj_transform_global_to_skin w9ctx w2shape 1 rfl rfl (Or.inr (Or.inl rfl))⟩

def c2skel : NifFile :=
  ⟨[⟨"B", "NiNode", none, Mat4.translation 0 0 5, false⟩], "Root", "SKYRIM"⟩

def c2nif : NifFile := ⟨[], "Root", "SKYRIM"⟩

def c2ctx : ImportCtx :=
  ⟨1, true, false, some c2skel, c2nif, id, id, fun _ => Mat4.identity,
   fun _ => Mat4.identity, fun m _ _ => m, fun _ => false⟩

def c2shape : NiShape :=
  ⟨"c2", true, Mat4.identity, true, Mat4.identity, ["B"], "SKYRIM",
   fun _ => Mat4.identity, fun _ => Mat4.identity⟩

/-- C2 counterexample: a skinned shape with an explicit global-to-skin
transform (the identity), one used bone "B" found in the reference
skeleton at translation (0,0,5), create_bones enabled.  The claim says
the algorithm stops at step 1 and returns the scaled inverse of the
global-to-skin transform; the code instead composes the reference-bind
offset on top and returns translation (0,0,5). -/
theorem calc_obj_transform_g2s_cex :
    calc_obj_transform c2ctx c2shape 1 = some (Mat4.translation 0 0 5) ∧
    c2shape.hasGlobalToSkin = true ∧
    Mat4.translation 0 0 5 ≠ apply_scale_xf (Mat4.inverted c2shape.globalToSkin) 1 := by
  refine ⟨?_, rfl, ?_⟩
  · simp only [calc_obj_transform, c2ctx, c2shape, c2skel]
    simp [cotOffsetLoop, NifFile.findNode, List.find?, inverted_identity,
      mul_identity_left, mul_identity_right, apply_scale_xf_translation_one]
  · simp only [c2shape, inverted_identity, apply_scale_xf_identity_one]
    simp [Mat4.translation, Mat4.identity, Mat4.mk.injEq, Vec3.mk.injEq, Vec3.zero]

/-! ## C1 -/

lemma MatNearEqual_self (a : Mat4) (eps : ℚ) (h : 0 < eps) :
    MatNearEqual a a eps = true := by
  simp [MatNearEqual, sub_self, abs_zero, h]

lemma fcaLoop_isOk_false_mono (c : ImportCtx) (obj : BlenderObj) (shape : NiShape)
    (arma : Armature) (l : List String) (off : Option Mat4) (cons : Bool) :
    (fcaLoop c obj shape arma l false off cons).1 = false := by
  induction l generalizing off cons with
  | nil => rfl
  | cons b t ih =>
    by_cases hb : arma.hasBone (c.blender_name b) = true
    · by_cases hm : MatNearEqual (shapeBoneGlobal c obj shape b)
          (armaBoneGlobal c arma shape (c.blender_name b)) defaultEps = true
      · simp only [fcaLoop, hb, hm, if_true]
        exact ih off cons
      · simp only [Bool.not_eq_true] at hm
        simp only [fcaLoop, hb, hm, Bool.false_eq_true, if_false, if_true]
        cases off with
        | none => exact ih _ _
        | some o =>
          by_cases hcons : MatNearEqual
              (Mat4.mul (shapeBoneGlobal c obj shape b)
                (armaBoneGlobal c arma shape (c.blender_name b))) o defaultEps = true
          · simp only [hcons, if_true]
            exact ih _ _
          · simp only [Bool.not_eq_true] at hcons
            simp only [hcons, Bool.false_eq_true, if_false]
    · simp only [Bool.not_eq_true] at hb
      simp only [fcaLoop, hb, Bool.false_eq_true, if_false]
      exact ih off cons

lemma fcaLoop_isOk_false_of_mismatch (c : ImportCtx) (obj : BlenderObj) (shape : NiShape)
    (arma : Armature) (l : List String)
    (h : ∃ b ∈ l, arma.hasBone (c.blender_name b) = true ∧
         MatNearEqual (shapeBoneGlobal c obj shape b)
           (armaBoneGlobal c arma shape (c.blender_name b)) defaultEps = false) :
    ∀ (isOk : Bool) (off : Option Mat4) (cons : Bool),
      (fcaLoop c obj shape arma l isOk off cons).1 = false := by
  induction l with
  | nil => simp at h
  | cons b t ih =>
    intro isOk off cons
    rcases h with ⟨b', hb', hhas, hmm⟩
    rcases List.mem_cons.mp hb' with rfl | hmem
    · simp only [fcaLoop, hhas, if_true, hmm, Bool.false_eq_true, if_false]
      cases off with
      | none => exact fcaLoop_isOk_false_mono c obj shape arma t _ _
      | some o =>
        by_cases hcons : MatNearEqual
            (Mat4.mul (shapeBoneGlobal c obj shape b')
              (armaBoneGlobal c arma shape (c.blender_name b'))) o defaultEps = true
        · simp only [hcons, if_true]
          exact fcaLoop_isOk_false_mono c obj shape arma t _ _
        · simp only [Bool.not_eq_true] at hcons
          simp only [hcons, Bool.false_eq_true, if_false]
    · have htail : ∃ x ∈ t, arma.hasBone (c.blender_name x) = true ∧
          MatNearEqual (shapeBoneGlobal c obj shape x)
            (armaBoneGlobal c arma shape (c.blender_name x)) defaultEps = false :=
        ⟨b', hmem, hhas, hmm⟩
      by_cases hb : arma.hasBone (c.blender_name b) = true
      · by_cases hm : MatNearEqual (shapeBoneGlobal c obj shape b)
            (armaBoneGlobal c arma shape (c.blender_name b)) defaultEps = true
        · simp only [fcaLoop, hb, hm, if_true]
          exact ih htail isOk off cons
        · simp only [Bool.not_eq_true] at hm
          simp only [fcaLoop, hb, hm, Bool.false_eq_true, if_false, if_true]
          cases off with
          | none => exact fcaLoop_isOk_false_mono c obj shape arma t _ _
          | some o =>
            by_cases hcons : MatNearEqual
                (Mat4.mul (shapeBoneGlobal c obj shape b)
                  (armaBoneGlobal c arma shape (c.blender_name b))) o defaultEps = true
            · simp only [hcons, if_true]
              exact fcaLoop_isOk_false_mono c obj shape arma t _ _
            · simp only [Bool.not_eq_true] at hcons
              simp only [hcons, Bool.false_eq_true, if_false]
      · simp only [Bool.not_eq_true] at hb
        simp only [fcaLoop, hb, Bool.false_eq_true, if_false]
        exact ih htail isOk off cons

/-- C1 (amended): when any used bone present in the first candidate rig
mismatches the rig's bind position, `find_compatible_arma` returns
`(None, None)` (Incompatible) -- even when every mismatching bone yields
the same delta.  The CompatibleWithOffset return exists in the source but
sits behind the constant-false guard `if False and offset_consistent`
(src line 972), so it is never taken. -/
theorem find_compatible_arma_mismatch_incompatible (c : ImportCtx) (obj : BlenderObj)
    (shape : NiShape) (arma : Armature) (rest : List Armature)
    (h : ∃ b ∈ shape.boneNames, arma.hasBone (c.blender_name b) = true ∧
         MatNearEqual (shapeBoneGlobal c obj shape b)
           (armaBoneGlobal c arma shape (c.blender_name b)) defaultEps = false) :
    find_compatible_arma c obj shape (arma :: rest) = (none, none) := by
  have hf := fcaLoop_isOk_false_of_mismatch c obj shape arma shape.boneNames h true none true
  simp [find_compatible_arma, hf]

def c1nif : NifFile := ⟨[], "Root", "SKYRIM"⟩

def c1ctx : ImportCtx :=
  ⟨1, false, false, none, c1nif, id, id, fun _ => Mat4.identity,
   fun _ => Mat4.identity, fun m _ _ => m, fun _ => false⟩

def c1obj : BlenderObj := ⟨"c1obj", Mat4.translation 0 0 5⟩

def c1shape : NiShape :=
  ⟨"c1", true, Mat4.identity, false, Mat4.identity, ["B"], "SKYRIM",
   fun _ => Mat4.identity, fun _ => Mat4.identity⟩

def c1arma : Armature := ⟨"c1arma", [⟨"B", none, Mat4.identity⟩], [], none⟩

lemma c1_blender_name : c1ctx.blender_name "B" = "B" := rfl

lemma c1_shape_eval : shapeBoneGlobal c1ctx c1obj c1shape "B" = Mat4.translation 0 0 5 := by
  simp [shapeBoneGlobal, c1ctx, c1obj, c1shape, apply_scale_xf_identity_one,
    mul_identity_right]

lemma c1_arma_eval : armaBoneGlobal c1ctx c1arma c1shape "B" = Mat4.identity := by
  simp [armaBoneGlobal, get_bone_xform, get_bone_global_xf, c1ctx, c1arma, c1shape,
    Armature.findBone, List.find?, mul_identity_right]

lemma c1_mismatch :
    MatNearEqual (Mat4.translation 0 0 5) Mat4.identity defaultEps = false := by
  simp [MatNearEqual, defaultEps, Mat4.translation, Mat4.identity, Mat3.id, Vec3.zero]
  norm_num

/-- C1 counterexample: one candidate armature, one used bone "B" present
in it, bind positions differing by the pure translation (0,0,5) -- so
every mismatching bone trivially yields the same delta.  The claim
demands CompatibleWithOffset(delta); the code returns (None, None). -/
theorem find_compatible_arma_consistent_offset_cex :
    find_compatible_arma c1ctx c1obj c1shape [c1arma] = (none, none) ∧
    c1arma.hasBone (c1ctx.blender_name "B") = true ∧
    MatNearEqual (shapeBoneGlobal c1ctx c1obj c1shape "B")
      (armaBoneGlobal c1ctx c1arma c1shape (c1ctx.blender_name "B")) defaultEps = false := by
  refine ⟨?_, by simp [c1arma, Armature.hasBone, Armature.findBone, List.find?, c1_blender_name], ?_⟩
  · apply find_compatible_arma_mismatch_incompatible
    exact ⟨"B", by simp [c1shape],
      by simp [c1arma, Armature.hasBone, Armature.findBone, List.find?, c1_blender_name],
      by rw [c1_blender_name, c1_shape_eval, c1_arma_eval]; exact c1_mismatch⟩
  · rw [c1_blender_name, c1_shape_eval, c1_arma_eval]
    exact c1_mismatch

/-- Witness for the C1 amended theorem at the concrete mismatch input. -/
theorem find_compatible_arma_mismatch_incompatible_witness :
    (∃ b ∈ c1shape.boneNames, c1arma.hasBone (c1ctx.blender_name b) = true ∧
      MatNearEqual (shapeBoneGlobal c1ctx c1obj c1shape b)
        (armaBoneGlobal c1ctx c1arma c1shape (c1ctx.blender_name b)) defaultEps = false) ∧
    find_compatible_arma c1ctx c1obj c1shape [c1arma] = (none, none) := by
  have hx : ∃ b ∈ c1shape.boneNames, c1arma.hasBone (c1ctx.blender_name b) = true ∧
      MatNearEqual (shapeBoneGlobal c1ctx c1obj c1shape b)
        (armaBoneGlobal c1ctx c1arma c1shape (c1ctx.blender_name b)) defaultEps = false :=
    ⟨"B", by simp [c1shape],
      by simp [c1arma, Armature.hasBone, Armature.findBone, List.find?, c1_blender_name],
      by rw [c1_blender_name, c1_shape_eval, c1_arma_eval]; exact c1_mismatch⟩
  exact ⟨hx, find_compatible_arma_mismatch_incompatible c1ctx c1obj c1shape c1arma [] hx⟩

/-! ## C6 -/

lemma fcaLoop_all_match (c : ImportCtx) (obj : BlenderObj) (shape : NiShape)
    (arma : Armature) (l : List String)
    (h : ∀ b ∈ l, arma.hasBone (c.blender_name b) = true →
         MatNearEqual (shapeBoneGlobal c obj shape b)
           (armaBoneGlobal c arma shape (c.blender_name b)) defaultEps = true) :
    fcaLoop c obj shape arma l true none true = (true, none, true) := by
  induction l with
  | nil => rfl
  | cons b t ih =>
    by_cases hb : arma.hasBone (c.blender_name b) = true
    · have hm := h b (by simp) hb
      simp only [fcaLoop, hb, hm, if_true]
      exact ih (fun b' hb' => h b' (by simp [hb']))
    · simp only [Bool.not_eq_true] at hb
      simp only [fcaLoop, hb, Bool.false_eq_true, if_false]
      exact ih (fun b' hb' => h b' (by simp [hb']))

/-- C6: candidates are examined in caller-supplied order and only the
head candidate is ever consulted: the result on `a :: rest` equals the
result on `[a]` whatever `rest` is, and when every used bone present in
`a` matches, the first candidate wins with `(some a, None)`.  (When it
does not fully match, the loop returns `(None, None)` without examining
`rest` -- that is the same equality, since the result never depends on
`rest`.) -/
theorem find_compatible_arma_first_candidate (c : ImportCtx) (obj : BlenderObj)
    (shape : NiShape) (a : Armature) (rest : List Armature) :
    find_compatible_arma c obj shape (a :: rest) = find_compatible_arma c obj shape [a] ∧
    ((∀ b ∈ shape.boneNames, a.hasBone (c.blender_name b) = true →
        MatNearEqual (shapeBoneGlobal c obj shape b)
          (armaBoneGlobal c a shape (c.blender_name b)) defaultEps = true) →
      find_compatible_arma c obj shape (a :: rest) = (some a, none)) := by
  constructor
  · rfl
  · intro h
    have hf := fcaLoop_all_match c obj shape a shape.boneNames h
    simp [find_compatible_arma, hf]

def c6obj : BlenderObj := ⟨"c6obj", Mat4.identity⟩

def c6shape : NiShape :=
  ⟨"c6", true, Mat4.identity, false, Mat4.identity, ["B"], "SKYRIM",
   fun _ => Mat4.identity, fun _ => Mat4.identity⟩

def c6arma : Armature := ⟨"c6arma", [⟨"B", none, Mat4.identity⟩], [], none⟩

def c6arma2 : Armature := ⟨"c6arma2", [], [], none⟩

lemma c6_match_eval :
    ∀ b ∈ c6shape.boneNames, c6arma.hasBone (c1ctx.blender_name b) = true →
      MatNearEqual (shapeBoneGlobal c1ctx c6obj c6shape b)
        (armaBoneGlobal c1ctx c6arma c6shape (c1ctx.blender_name b)) defaultEps = true := by
  intro b hb _
  have hb' : b = "B" := by simpa [c6shape] using hb
  subst hb'
  have h1 : shapeBoneGlobal c1ctx c6obj c6shape "B" = Mat4.identity := by
    simp [shapeBoneGlobal, c1ctx, c6obj, c6shape, apply_scale_xf_identity_one,
      mul_identity_left]
  have h2 : armaBoneGlobal c1ctx c6arma c6shape (c1ctx.blender_name "B") = Mat4.identity := by
    simp [armaBoneGlobal, get_bone_xform, get_bone_global_xf, c1ctx, c6arma, c6shape,
      Armature.findBone, List.find?, mul_identity_right, ImportCtx.blender_name]
  rw [h1, h2]
  exact MatNearEqual_self _ _ (by norm_num [defaultEps])

/-- Witness for C6: two candidates, the first fully matching; the result
ignores the tail and the first candidate wins. -/
theorem find_compatible_arma_first_candidate_witness :
    find_compatible_arma c1ctx c6obj c6shape [c6arma, c6arma2] =
      find_compatible_arma c1ctx c6obj c6shape [c6arma] ∧
    find_compatible_arma c1ctx c6obj c6shape [c6arma, c6arma2] = (some c6arma, none) :=
  ⟨(find_compatible_arma_first_candidate c1ctx c6obj c6shape c6arma [c6arma2]).1,
   (find_compatible_arma_first_candidate c1ctx c6obj c6shape c6arma [c6arma2]).2 c6_match_eval⟩

/-! ## C5 -/

lemma find?_cons_pos {α : Type} (q : α → Bool) (a : α) (l : List α) (h : q a = true) :
    List.find? q (a :: l) = some a := by
  simp only [List.find?, h]

lemma find?_cons_neg {α : Type} (q : α → Bool) (a : α) (l : List α) (h : q a = false) :
    List.find? q (a :: l) = List.find? q l := by
  simp only [List.find?, h]

lemma find?_fst_map_preserve (l : List (String × Mat4)) (n x : String) (m : Mat4) :
    ((l.map (fun p => if p.1 == n then (p.1, m) else p)).find? (fun p => p.1 == x)).isSome =
      (l.find? (fun p => p.1 == x)).isSome := by
  induction l with
  | nil => rfl
  | cons p t ih =>
    by_cases hx : (p.1 == x) = true
    · rw [List.map_cons,
        find?_cons_pos (fun p : String × Mat4 => p.1 == x) _ _
          (by by_cases h : (p.1 == n) = true <;> simp [h, hx]),
        find?_cons_pos (fun p : String × Mat4 => p.1 == x) _ _ hx]
      rfl
    · have hx' : (p.1 == x) = false := by simpa using hx
      rw [List.map_cons,
        find?_cons_neg (fun p : String × Mat4 => p.1 == x) _ _
          (by by_cases h : (p.1 == n) = true <;> simp [h, hx']),
        find?_cons_neg (fun p : String × Mat4 => p.1 == x) _ _ hx']
      exact ih

lemma hasPose_setPose (a : Armature) (n x : String) (m : Mat4) :
    (a.setPose n m).hasPose x = a.hasPose x := by
  simp only [Armature.hasPose, Armature.findPose, Armature.setPose, Option.isSome_map']
  exact find?_fst_map_preserve a.poses n x m

lemma hasPose_sbpStep (c : ImportCtx) (nif : NifFile) (a : Armature)
    (p : String × String) (x : String) :
    (sbpStep c nif a p).hasPose x = a.hasPose x := by
  unfold sbpStep
  cases nif.findNode p.1 with
  | none => rfl
  | some nd =>
    by_cases h1 : a.hasPose p.2 = true
    · by_cases h2 : (nd.blockname == "NiNode" && nd.name != nif.rootName) = true
      · simp [h1, h2, hasPose_setPose]
      · simp only [Bool.not_eq_true] at h2
        simp [h1, h2]
    · simp only [Bool.not_eq_true] at h1
      simp [h1]

lemma hasPose_set_bone_poses (c : ImportCtx) (nif : NifFile) (a : Armature)
    (l : List (String × String)) (x : String) :
    (set_bone_poses c a nif l).hasPose x = a.hasPose x := by
  induction l generalizing a with
  | nil => rfl
  | cons p t ih =>
    show (set_bone_poses c (sbpStep c nif a p) nif t).hasPose x = a.hasPose x
    rw [ih, hasPose_sbpStep]

lemma find?_setPose_list (l : List (String × Mat4)) (n : String) (m : Mat4)
    (h : (l.find? (fun p => p.1 == n)).isSome = true) :
    (l.map (fun p => if p.1 == n then (p.1, m) else p)).find? (fun p => p.1 == n) =
      some (n, m) := by
  induction l with
  | nil => simp [List.find?] at h
  | cons p t ih =>
    by_cases hx : (p.1 == n) = true
    · have hn : p.1 = n := by simpa using hx
      rw [List.map_cons, find?_cons_pos (fun p : String × Mat4 => p.1 == n) _ _ (by simp [hx])]
      simp [hx, hn]
    · have hx' : (p.1 == n) = false := by simpa using hx
      rw [List.map_cons,
        find?_cons_neg (fun p : String × Mat4 => p.1 == n) _ _ (by simp [hx'])]
      refine ih ?_
      rwa [find?_cons_neg (fun p : String × Mat4 => p.1 == n) _ _ hx'] at h

lemma findPose_setPose_self (a : Armature) (n : String) (m : Mat4)
    (h : a.hasPose n = true) :
    (a.setPose n m).findPose n = some m := by
  simp only [Armature.hasPose, Armature.findPose, Armature.setPose, Option.isSome_map'] at h ⊢
  rw [find?_setPose_list a.poses n m h]
  rfl

/-- C5 (amended): `set_bone_poses` overwrites the pose of a
(source-name, rig-name) pair only when, in addition to the pair being
present in both the source file and the rig, the source node's block
type is "NiNode" and it is not the file's root node; for such a pair the
pose becomes the node's global transform corrected for convention and
scale (`get_pose_blender_xf`). -/
theorem set_bone_poses_overwrites (c : ImportCtx) (arma : Armature) (nif : NifFile)
    (pre : List (String × String)) (bn bl : String) (node : NifNode)
    (hfind : nif.findNode bn = some node)
    (hpose : arma.hasPose bl = true)
    (hblock : node.blockname = "NiNode")
    (hroot : node.name ≠ nif.rootName) :
    (set_bone_poses c arma nif (pre ++ [(bn, bl)])).findPose bl =
      some (get_pose_blender_xf c node.xformToGlobal c.nif.game c.scale) := by
  rw [set_bone_poses, List.foldl_append]
  have hpose' : (List.foldl (sbpStep c nif) arma pre).hasPose bl = true := by
    have hs := hasPose_set_bone_poses c nif arma pre bl
    rw [set_bone_poses] at hs
    rw [hs]
    exact hpose
  simp only [List.foldl_cons, List.foldl_nil]
  generalize List.foldl (sbpStep c nif) arma pre = A at hpose' ⊢
  have hcond : (node.blockname == "NiNode" && node.name != nif.rootName) = true := by
    simp [hblock, bne_iff_ne, hroot]
  unfold sbpStep
  simp only [hfind, hpose', hcond, if_true]
  exact findPose_setPose_self A bl _ hpose'

def w5node : NifNode := ⟨"Y", "NiNode", none, Mat4.translation 0 0 5, false⟩

def w5nif : NifFile := ⟨[w5node], "Root", "SKYRIM"⟩

def w5arma : Armature := ⟨"w5arma", [⟨"Y", none, Mat4.identity⟩], [("Y", Mat4.identity)], none⟩

/-- Witness for C5: a genuine NiNode pair is overwritten. -/
theorem set_bone_poses_overwrites_witness :
    (w5nif.findNode "Y" = some w5node ∧ w5arma.hasPose "Y" = true ∧
      w5node.blockname = "NiNode" ∧ w5node.name ≠ w5nif.rootName) ∧
    (set_bone_poses c1ctx w5arma w5nif ([] ++ [("Y", "Y")])).findPose "Y" =
      some (get_pose_blender_xf c1ctx w5node.xformToGlobal c1ctx.nif.game c1ctx.scale) :=
  ⟨⟨by simp [w5nif, w5node, NifFile.findNode, List.find?],
    by simp [w5arma, Armature.hasPose, Armature.findPose, List.find?], rfl,
    by simp [w5node, w5nif]⟩,
   set_bone_poses_overwrites c1ctx w5arma w5nif [] "Y" "Y" w5node
     (by simp [w5nif, w5node, NifFile.findNode, List.find?])
     (by simp [w5arma, Armature.hasPose, Armature.findPose, List.find?])
     rfl (by simp [w5node, w5nif])⟩

def c5node : NifNode := ⟨"X", "BSFadeNode", none, Mat4.translation 0 0 5, false⟩

def c5nif : NifFile := ⟨[c5node], "Root", "SKYRIM"⟩

def c5arma : Armature := ⟨"c5arma", [⟨"X", none, Mat4.identity⟩], [("X", Mat4.identity)], none⟩

/-- C5 counterexample: node "X" is present in the source and bone "X" in
the rig's pose bones, yet `set_bone_poses` leaves the pose untouched
because the node's block type is "BSFadeNode", not "NiNode" -- the claim
as stated requires the overwrite for every present pair. -/
theorem set_bone_poses_blockname_cex :
    set_bone_poses c1ctx c5arma c5nif [("X", "X")] = c5arma ∧
    c5nif.findNode "X" = some c5node ∧
    c5arma.hasPose "X" = true ∧
    c5arma.findPose "X" = some Mat4.identity ∧
    get_pose_blender_xf c1ctx c5node.xformToGlobal c1ctx.nif.game c1ctx.scale ≠
      Mat4.identity := by
  refine ⟨?_, by simp [c5nif, c5node, NifFile.findNode, List.find?],
    by simp [c5arma, Armature.hasPose, Armature.findPose, List.find?],
    by simp [c5arma, Armature.findPose, List.find?], ?_⟩
  · simp [set_bone_poses, sbpStep, c5nif, c5node, NifFile.findNode, List.find?]
  · have he : get_pose_blender_xf c1ctx c5node.xformToGlobal c1ctx.nif.game c1ctx.scale =
        Mat4.translation 0 0 5 := by
      show Mat4.mul (apply_scale_transl (Mat4.translation 0 0 5) 1) Mat4.identity = _
      rw [apply_scale_transl_translation, mul_identity_right]
      norm_num
    rw [he]
    simp [Mat4.translation, Mat4.identity, Mat4.mk.injEq, Vec3.mk.injEq, Vec3.zero]

/-! ## C3/C4 infrastructure: armature names, universe membership,
measure lemmas -/

def Armature.names (a : Armature) : List String := a.bones.map EditBone.name

lemma names_setParent (a : Armature) (n : String) (p : Option String) :
    (a.setParent n p).names = a.names := by
  simp only [Armature.names, Armature.setParent, List.map_map]
  apply List.map_congr_left
  intro b _
  by_cases h : (b.name == n) = true <;> simp [Function.comp, h]

lemma names_addBone (a : Armature) (n : String) (m : Mat4) :
    (a.addBone n m).names = a.names ++ [n] := by
  simp [Armature.names, Armature.addBone]

lemma find?_name_isSome_iff (l : List EditBone) (x : String) :
    ((l.find? (fun b => b.name == x)).isSome = true) ↔ x ∈ l.map EditBone.name := by
  induction l with
  | nil => simp [List.find?]
  | cons b t ih =>
    by_cases h : (b.name == x) = true
    · have hbx : b.name = x := by simpa using h
      simp [find?_cons_pos (fun b : EditBone => b.name == x) _ _ h, hbx]
    · have h' : (b.name == x) = false := by simpa using h
      have hne : x ≠ b.name := fun he => by simp [he] at h
      rw [find?_cons_neg (fun b : EditBone => b.name == x) _ _ h']
      simp [ih, hne]

lemma hasBone_iff_mem_names (a : Armature) (x : String) :
    a.hasBone x = true ↔ x ∈ a.names := by
  simp only [Armature.hasBone, Armature.findBone, Armature.names]
  exact find?_name_isSome_iff a.bones x

lemma hasBone_eq_of_names_eq (a a' : Armature) (h : a.names = a'.names) (x : String) :
    a.hasBone x = a'.hasBone x := by
  rw [Bool.eq_iff_iff, hasBone_iff_mem_names, hasBone_iff_mem_names, h]

lemma add_bone_to_arma_of_not_hasBone (c : ImportCtx) (arma : Armature) (bn nifn : String)
    (h : arma.hasBone bn = false) :
    (add_bone_to_arma c arma bn nifn).1.names = arma.names ++ [bn] ∧
    (add_bone_to_arma c arma bn nifn).2 = some bn := by
  simp [add_bone_to_arma, h, names_addBone]

lemma blender_parent_mem (c : ImportCtx) (f : NifFile) (node : NifNode) (q : String)
    (hmem : node ∈ f.nodes) (hq : node.parent = some q) :
    c.blender_name q ∈ (f.nodes.filterMap NifNode.parent).map c.blender_name :=
  List.mem_map_of_mem c.blender_name (List.mem_filterMap.mpr ⟨node, hmem, hq⟩)

lemma findParentFromNif_mem (c : ImportCtx) (nifname pname pnif : String)
    (h : findParentFromNif c nifname = some (pname, pnif)) :
    pname ∈ parentNameUniverse c := by
  unfold findParentFromNif at h
  cases hfn : c.nif.findNode nifname with
  | none => simp only [hfn] at h; exact Option.noConfusion h
  | some node =>
    simp only [hfn] at h
    cases hp : node.parent with
    | none => simp only [hp] at h; exact Option.noConfusion h
    | some q =>
      simp only [hp] at h
      by_cases hq : (q != c.nif.rootName) = true
      · rw [if_pos hq] at h
        obtain ⟨h1, -⟩ : c.blender_name q = pname ∧ q = pnif := by
          have := Option.some.injEq _ _ ▸ h
          exact Prod.mk.injEq .. ▸ (Option.some.inj h)
        rw [← h1]
        exact List.mem_append_left _
          (blender_parent_mem c c.nif node q
            (List.mem_of_find?_eq_some hfn) hp)
      · rw [if_neg hq] at h
        exact absurd h (by simp)

lemma findParentFromSkel_mem (c : ImportCtx) (bonename nifname pname pnif : String)
    (h : findParentFromSkel c bonename nifname = some (pname, pnif)) :
    pname ∈ parentNameUniverse c := by
  unfold findParentFromSkel at h
  by_cases hcb : (c.createBones && !c.isFaceboneFn bonename) = true
  case neg => rw [if_neg hcb] at h; exact absurd h (by simp)
  rw [if_pos hcb] at h
  cases hrs : c.refSkel with
  | none => simp only [hrs] at h; exact Option.noConfusion h
  | some skel =>
    simp only [hrs] at h
    by_cases hhn : (skel.hasNode nifname && nifname != skel.rootName) = true
    case neg => rw [if_neg hhn] at h; exact absurd h (by simp)
    rw [if_pos hhn] at h
    cases hb : (skel.findNode nifname).bind NifNode.parent with
    | none => simp only [hb] at h; exact Option.noConfusion h
    | some q =>
      simp only [hb] at h
      by_cases hq : (q != skel.rootName) = true
      case neg => rw [if_neg hq] at h; exact absurd h (by simp)
      rw [if_pos hq] at h
      obtain ⟨h1, -⟩ : c.blender_name q = pname ∧ q = pnif := by
        exact Prod.mk.injEq .. ▸ (Option.some.inj h)
      rw [← h1]
      apply List.mem_append_right
      rw [hrs]
      obtain ⟨node, hfind, hpar⟩ := Option.bind_eq_some.mp hb
      exact blender_parent_mem c skel node q (List.mem_of_find?_eq_some hfind) hpar

lemma findParentNames_mem_universe (c : ImportCtx) (bn pname pnif : String)
    (h : findParentNames c bn = some (pname, pnif)) :
    pname ∈ parentNameUniverse c := by
  unfold findParentNames at h
  cases hfn : findParentFromNif c (c.nif_name bn) with
  | some p =>
    simp only [hfn] at h
    obtain ⟨p1, p2⟩ := p
    injection h with h2
    rw [Prod.mk.injEq] at h2
    obtain ⟨rfl, rfl⟩ := h2
    exact findParentFromNif_mem c (c.nif_name bn) p1 p2 hfn
  | none =>
    simp only [hfn] at h
    exact findParentFromSkel_mem c bn (c.nif_name bn) pname pnif h

/-- Case analysis on one `connect_armature` loop iteration: either the
queue gains nothing and the armature's bone-name list is unchanged, or
exactly one new bone is created, drawn from the parent-name universe and
previously absent. -/
lemma connectStep_spec (c : ImportCtx) (arma : Armature) (nb : List (String × String))
    (cols : List String) (bn : String) :
    ((connectStep c arma nb cols bn).2.2.2 = [] ∧
      (connectStep c arma nb cols bn).1.names = arma.names) ∨
    (∃ pn, (connectStep c arma nb cols bn).2.2.2 = [pn] ∧
      pn ∈ parentNameUniverse c ∧ arma.hasBone pn = false ∧
      (connectStep c arma nb cols bn).1.names = arma.names ++ [pn]) := by
  unfold connectStep
  cases hfb : arma.findBone bn with
  | none => refine Or.inl ⟨?_, ?_⟩ <;> trivial
  | some ab =>
    by_cases hp : ab.parent.isSome = true
    · simp only [hp, if_true]
      refine Or.inl ⟨?_, ?_⟩ <;> trivial
    · have hp' : ab.parent.isSome = false := by simpa using hp
      simp only [hp', Bool.false_eq_true, if_false]
      cases hfp : findParentNames c bn with
      | none => simp only [hfp]; refine Or.inl ⟨?_, ?_⟩ <;> trivial
      | some pp =>
        obtain ⟨pname, pnif⟩ := pp
        simp only [hfp]
        by_cases hhas : arma.hasBone pname = true
        · simp only [hhas, Bool.not_true, Bool.false_eq_true, if_false]
          refine Or.inl ⟨?_, ?_⟩
          · trivial
          · exact names_setParent _ _ _
        · have hhas' : arma.hasBone pname = false := by simpa using hhas
          simp only [hhas', Bool.not_false, if_true]
          refine Or.inr ⟨pname, rfl, findParentNames_mem_universe c bn pname pnif hfp,
            hhas', ?_⟩
          rw [names_setParent,
            (add_bone_to_arma_of_not_hasBone c arma pname pnif hhas').1]

/-! Filter-length measure lemmas -/

lemma filter_mono_length {α : Type} (l : List α) (p q : α → Bool)
    (h : ∀ a, q a = true → p a = true) :
    (l.filter q).length ≤ (l.filter p).length := by
  induction l with
  | nil => simp
  | cons a t ih =>
    by_cases hq : q a = true
    · have hpa := h a hq
      simp only [List.filter_cons, hq, hpa, if_true]
      simpa using ih
    · have hq' : q a = false := by simpa using hq
      by_cases hpa : p a = true
      · simp only [List.filter_cons, hq', hpa, Bool.false_eq_true, if_false, if_true]
        calc (t.filter q).length ≤ (t.filter p).length := ih
          _ ≤ (a :: t.filter p).length := by simp
      · have hpa' : p a = false := by simpa using hpa
        simp only [List.filter_cons, hq', hpa', Bool.false_eq_true, if_false]
        exact ih

lemma filter_strict_length {α : Type} (l : List α) (p q : α → Bool)
    (h : ∀ a, q a = true → p a = true) (x : α) (hx : x ∈ l)
    (hpx : p x = true) (hqx : q x = false) :
    (l.filter q).length < (l.filter p).length := by
  induction l with
  | nil => simp at hx
  | cons a t ih =>
    rcases List.mem_cons.mp hx with rfl | hmem
    · simp only [List.filter_cons, hqx, hpx, Bool.false_eq_true, if_false, if_true]
      have := filter_mono_length t p q h
      simp only [List.length_cons]
      omega
    · by_cases hq : q a = true
      · have hpa := h a hq
        simp only [List.filter_cons, hq, hpa, if_true]
        simpa using ih hmem
      · have hq' : q a = false := by simpa using hq
        by_cases hpa : p a = true
        · simp only [List.filter_cons, hq', hpa, Bool.false_eq_true, if_false, if_true]
          have := ih hmem
          simp only [List.length_cons]
          omega
        · have hpa' : p a = false := by simpa using hpa
          simp only [List.filter_cons, hq', hpa', Bool.false_eq_true, if_false]
          exact ih hmem

/-! ## C4 -/

lemma connectMeasure_step (c : ImportCtx) (st : ConnectState) (bn : String)
    (rest : List String) (hq : st.queue = bn :: rest) :
    connectMeasure c
      ⟨(connectStep c st.arma st.newBones st.collisions bn).1,
       rest ++ (connectStep c st.arma st.newBones st.collisions bn).2.2.2,
       (connectStep c st.arma st.newBones st.collisions bn).2.1,
       (connectStep c st.arma st.newBones st.collisions bn).2.2.1⟩ <
      connectMeasure c st := by
  rcases connectStep_spec c st.arma st.newBones st.collisions bn with
    ⟨ha, hn⟩ | ⟨pn, ha, hu, hb, hn⟩
  · unfold connectMeasure
    dsimp only
    rw [ha, hq]
    have hfeq :
        (parentNameUniverse c).filter
            (fun n => !(connectStep c st.arma st.newBones st.collisions bn).1.hasBone n) =
          (parentNameUniverse c).filter (fun n => !st.arma.hasBone n) := by
      apply List.filter_congr
      intro x _
      rw [hasBone_eq_of_names_eq _ st.arma hn]
    rw [hfeq]
    simp
  · unfold connectMeasure
    dsimp only
    rw [ha, hq]
    have hlt :
        ((parentNameUniverse c).filter
            (fun n => !(connectStep c st.arma st.newBones st.collisions bn).1.hasBone n)).length <
          ((parentNameUniverse c).filter (fun n => !st.arma.hasBone n)).length := by
      refine filter_strict_length (parentNameUniverse c)
        (fun n => !st.arma.hasBone n)
        (fun n => !(connectStep c st.arma st.newBones st.collisions bn).1.hasBone n)
        ?_ pn hu ?_ ?_
      · intro a haq
        rw [Bool.not_eq_true'] at haq ⊢
        cases hx : st.arma.hasBone a with
        | false => rfl
        | true =>
          exfalso
          have hmem : a ∈ st.arma.names := (hasBone_iff_mem_names _ _).mp hx
          have hnew : (connectStep c st.arma st.newBones st.collisions bn).1.hasBone a = true := by
            rw [hasBone_iff_mem_names, hn]
            exact List.mem_append_left _ hmem
          rw [hnew] at haq
          exact Bool.noConfusion haq
      · rw [Bool.not_eq_true', hb]
      · rw [Bool.not_eq_false']
        rw [hasBone_iff_mem_names, hn]
        exact List.mem_append_right _ (by simp)
    have hq1 : (rest ++ [pn]).length = rest.length + 1 := by simp
    have hq2 : (bn :: rest).length = rest.length + 1 := by simp
    rw [hq1, hq2]
    omega

lemma connectLoop_isSome (c : ImportCtx) :
    ∀ (fuel : Nat) (st : ConnectState), connectMeasure c st < fuel →
      (connectLoop c fuel st).isSome = true := by
  intro fuel
  induction fuel with
  | zero => intro st h; omega
  | succ n ih =>
    intro st h
    rw [connectLoop]
    cases hq : st.queue with
    | nil => simp
    | cons bn rest =>
      apply ih
      have hdec := connectMeasure_step c st bn rest hq
      have hle : connectMeasure c st ≤ n + 1 := Nat.le_of_lt_succ h |>.trans (Nat.le_succ n)
      omega

/-- C4 (amended): `connect_armature` terminates on every input, cyclic
parent graphs included: the queue grows only by newly created bones
drawn from the finite parent-name universe, so the pass is bounded.  No
CyclicHierarchy error exists anywhere in the function -- there is no
visited set; on a cycle the bones are simply linked to each other (see
the counterexample). -/
theorem connect_armature_total (c : ImportCtx) (arma : Armature) :
    (connect_armature c arma).isSome = true := by
  unfold connect_armature
  rw [Option.isSome_map']
  exact connectLoop_isSome c _ _ (Nat.lt_succ_self _)

/-! ## C3: the on-demand creation invariant -/

lemma connectLoop_succ (c : ImportCtx) (fuel : Nat) (st : ConnectState) :
    connectLoop c (fuel + 1) st =
      match st.queue with
      | [] => some st
      | bn :: rest =>
        connectLoop c fuel
          ⟨(connectStep c st.arma st.newBones st.collisions bn).1,
           rest ++ (connectStep c st.arma st.newBones st.collisions bn).2.2.2,
           (connectStep c st.arma st.newBones st.collisions bn).2.1,
           (connectStep c st.arma st.newBones st.collisions bn).2.2.1⟩ := rfl

lemma bones_setPose (a : Armature) (n : String) (m : Mat4) :
    (a.setPose n m).bones = a.bones := rfl

lemma bones_sbpStep (c : ImportCtx) (nif : NifFile) (a : Armature) (p : String × String) :
    (sbpStep c nif a p).bones = a.bones := by
  unfold sbpStep
  cases nif.findNode p.1 with
  | none => rfl
  | some nd =>
    by_cases h1 : a.hasPose p.2 = true
    · by_cases h2 : (nd.blockname == "NiNode" && nd.name != nif.rootName) = true
      · simp [h1, h2, bones_setPose]
      · have h2' : (nd.blockname == "NiNode" && nd.name != nif.rootName) = false := by
          simpa using h2
        simp [h1, h2']
    · have h1' : a.hasPose p.2 = false := by simpa using h1
      simp [h1']

lemma bones_set_bone_poses (c : ImportCtx) (nif : NifFile) (a : Armature)
    (l : List (String × String)) :
    (set_bone_poses c a nif l).bones = a.bones := by
  induction l generalizing a with
  | nil => rfl
  | cons p t ih =>
    show (set_bone_poses c (sbpStep c nif a p) nif t).bones = a.bones
    rw [ih, bones_sbpStep]

lemma findBone_eq (a : Armature) (bn : String) (ab : EditBone)
    (h : a.findBone bn = some ab) : ab ∈ a.bones ∧ ab.name = bn := by
  refine ⟨List.mem_of_find?_eq_some h, ?_⟩
  have := List.find?_some h
  simpa using this

lemma unique_by_name (a : Armature) (hnd : a.names.Nodup) (b1 b2 : EditBone)
    (h1 : b1 ∈ a.bones) (h2 : b2 ∈ a.bones) (he : b1.name = b2.name) : b1 = b2 :=
  List.inj_on_of_nodup_map hnd h1 h2 he

lemma mem_setParent_of_mem_ne (a : Armature) (n : String) (p : Option String)
    (b : EditBone) (hb : b ∈ a.bones) (hne : b.name ≠ n) :
    b ∈ (a.setParent n p).bones := by
  have he : (fun bb => if bb.name == n then { bb with parent := p } else bb) b = b := by
    simp [hne]
  have := List.mem_map_of_mem (fun bb => if bb.name == n then { bb with parent := p } else bb) hb
  rw [he] at this
  exact this

lemma setParent_target (a : Armature) (bn : String) (p : Option String) (ab : EditBone)
    (hfb : a.findBone bn = some ab) :
    ({ ab with parent := p } : EditBone) ∈ (a.setParent bn p).bones := by
  obtain ⟨hmem, hname⟩ := findBone_eq a bn ab hfb
  have he : (fun bb => if bb.name == bn then { bb with parent := p } else bb) ab =
      { ab with parent := p } := by
    simp [hname]
  have := List.mem_map_of_mem (fun bb => if bb.name == bn then { bb with parent := p } else bb) hmem
  rw [he] at this
  exact this

lemma add_bone_to_arma_shape (c : ImportCtx) (arma : Armature) (bn nifn : String)
    (h : arma.hasBone bn = false) :
    ∃ m, add_bone_to_arma c arma bn nifn = (arma.addBone bn m, some bn) :=
  ⟨addBoneMat c arma nifn, by simp [add_bone_to_arma, h]⟩

lemma findBone_addBone_of_found (a : Armature) (bn x : String) (m : Mat4)
    (ab : EditBone) (h : a.findBone bn = some ab) :
    (a.addBone x m).findBone bn = some ab := by
  simp only [Armature.findBone, Armature.addBone] at h ⊢
  rw [List.find?_append, h]
  rfl

lemma rigInv_step (c : ImportCtx) (arma : Armature) (nb : List (String × String))
    (cols : List String) (bn : String)
    (hinv1 : ∀ p ∈ nb, ∃ b ∈ arma.bones, b.parent = some p.2 ∧ b.name ≠ p.2)
    (hnd : arma.names.Nodup) :
    (∀ p ∈ (connectStep c arma nb cols bn).2.1,
        ∃ b ∈ (connectStep c arma nb cols bn).1.bones, b.parent = some p.2 ∧ b.name ≠ p.2) ∧
    (connectStep c arma nb cols bn).1.names.Nodup := by
  unfold connectStep
  cases hfb : arma.findBone bn with
  | none => exact ⟨hinv1, hnd⟩
  | some ab =>
    obtain ⟨habmem, habname⟩ := findBone_eq arma bn ab hfb
    by_cases hp : ab.parent.isSome = true
    · simp only [hp, if_true]
      exact ⟨hinv1, hnd⟩
    · have hpnone : ab.parent = none := by
        cases hab : ab.parent
        · rfl
        · rw [hab] at hp; simp at hp
      have hp' : ab.parent.isSome = false := by simp [hpnone]
      simp only [hp', Bool.false_eq_true, if_false]
      cases hfp : findParentNames c bn with
      | none => exact ⟨hinv1, hnd⟩
      | some pp =>
        obtain ⟨pname, pnif⟩ := pp
        simp only [hfp]
        by_cases hhas : arma.hasBone pname = true
        · simp only [hhas, Bool.not_true, Bool.false_eq_true, if_false]
          refine ⟨?_, by rw [names_setParent]; exact hnd⟩
          intro p hp2
          obtain ⟨b, hbmem, hbpar, hbne⟩ := hinv1 p hp2
          have hbne' : b.name ≠ bn := by
            intro he
            have hb_eq : b = ab :=
              unique_by_name arma hnd b ab hbmem habmem (he.trans habname.symm)
            rw [hb_eq, hpnone] at hbpar
            exact Option.noConfusion hbpar
          exact ⟨b, mem_setParent_of_mem_ne arma bn _ b hbmem hbne', hbpar, hbne⟩
        · have hhas' : arma.hasBone pname = false := by simpa using hhas
          simp only [hhas', Bool.not_false, if_true]
          obtain ⟨m, hm⟩ := add_bone_to_arma_shape c arma pname pnif hhas'
          rw [hm]
          have hbn_ne : bn ≠ pname := by
            intro he
            rw [← he] at hhas'
            rw [show arma.hasBone bn = true by simp [Armature.hasBone, hfb]] at hhas'
            exact Bool.noConfusion hhas'
          have hnodup' : (arma.addBone pname m).names.Nodup := by
            rw [names_addBone]
            rw [List.nodup_append]
            refine ⟨hnd, by simp, ?_⟩
            intro a ha hmem
            have : a = pname := by simpa using hmem
            rw [this] at ha
            exact absurd ((hasBone_iff_mem_names arma pname).mpr ha) (by simp [hhas'])
          constructor
          · intro p hp2
            rcases List.mem_append.mp hp2 with hold | hnew
            · obtain ⟨b, hbmem, hbpar, hbne⟩ := hinv1 p hold
              have hbne' : b.name ≠ bn := by
                intro he
                have hb_eq : b = ab :=
                  unique_by_name arma hnd b ab hbmem habmem (he.trans habname.symm)
                rw [hb_eq, hpnone] at hbpar
                exact Option.noConfusion hbpar
              refine ⟨b, ?_, hbpar, hbne⟩
              exact mem_setParent_of_mem_ne _ bn _ b
                (by simp [Armature.addBone]; exact Or.inl hbmem) hbne'
            · have hpv : p = (pnif, pname) := by simpa using hnew
              refine ⟨{ ab with parent := some pname }, ?_, by rw [hpv], ?_⟩
              · exact setParent_target (arma.addBone pname m) bn (some pname) ab
                  (findBone_addBone_of_found arma bn pname m ab hfb)
              · rw [hpv]
                simpa [habname] using hbn_ne
          · rw [names_setParent]
            exact hnodup'

lemma connectLoop_inv (c : ImportCtx) :
    ∀ (fuel : Nat) (st st' : ConnectState), connectLoop c fuel st = some st' →
      (∀ p ∈ st.newBones, ∃ b ∈ st.arma.bones, b.parent = some p.2 ∧ b.name ≠ p.2) →
      st.arma.names.Nodup →
      ∀ p ∈ st'.newBones, ∃ b ∈ st'.arma.bones, b.parent = some p.2 ∧ b.name ≠ p.2 := by
  intro fuel
  induction fuel with
  | zero =>
    intro st st' h
    exact absurd h (by simp [connectLoop])
  | succ n ih =>
    intro st st' h h1 h2
    rw [connectLoop_succ] at h
    cases hq : st.queue with
    | nil =>
      rw [hq] at h
      obtain rfl := Option.some.inj h
      exact h1
    | cons bn rest =>
      rw [hq] at h
      have hstep := rigInv_step c st.arma st.newBones st.collisions bn h1 h2
      exact ih _ _ h hstep.1 hstep.2

/-- C3 (amended): creation during a `connect_armature` pass is on
demand, bottom-up: every bone recorded in the pass's `new_bones`
creation list was created as the missing PARENT of a bone already in
the armature, and in the final rig some other bone still has it as its
parent.  No top-down order holds; in the chain scenario of the
counterexample the child-side bone is created strictly before its
parent. -/
theorem connect_armature_parent_on_demand (c : ImportCtx) (arma : Armature)
    (res : Armature × List (String × String) × List String)
    (hnd : (arma.bones.map EditBone.name).Nodup)
    (h : connect_armature c arma = some res) :
    ∀ p ∈ res.2.1, ∃ b ∈ res.1.bones, b.parent = some p.2 ∧ b.name ≠ p.2 := by
  unfold connect_armature at h
  rcases Option.map_eq_some'.mp h with ⟨st, hloop, hmap⟩
  have hinv := connectLoop_inv c _ _ _ hloop (by simp) hnd
  intro p hp
  have hres1 : res.1.bones = st.arma.bones := by
    rw [← hmap]
    exact bones_set_bone_poses c c.nif st.arma _
  have hres2 : res.2.1 = st.newBones := by rw [← hmap]
  rw [hres2] at hp
  obtain ⟨b, hb, h3, h4⟩ := hinv p hp
  exact ⟨b, hres1 ▸ hb, h3, h4⟩

/-! Concrete chain run for C3: armature has only C; the nif has
Root -> A -> B -> C.  The pass creates B (while processing C), then A
(while processing B): child before parent. -/

def c3nodeA : NifNode := ⟨"A", "NiNode", some "Root", Mat4.identity, false⟩

def c3nodeB : NifNode := ⟨"B", "NiNode", some "A", Mat4.identity, false⟩

def c3nodeC : NifNode := ⟨"C", "NiNode", some "B", Mat4.identity, false⟩

def c3nif : NifFile := ⟨[c3nodeA, c3nodeB, c3nodeC], "Root", "SKYRIM"⟩

def c3ctx : ImportCtx :=
  ⟨1, false, false, none, c3nif, id, id, fun _ => Mat4.identity,
   fun _ => Mat4.identity, fun m _ _ => m, fun _ => false⟩

def c3arma : Armature := ⟨"c3arma", [⟨"C", none, Mat4.identity⟩], [], none⟩

def c3arma1 : Armature :=
  ⟨"c3arma", [⟨"C", some "B", Mat4.identity⟩, ⟨"B", none, Mat4.identity⟩], [], none⟩

def c3arma2 : Armature :=
  ⟨"c3arma", [⟨"C", some "B", Mat4.identity⟩, ⟨"B", some "A", Mat4.identity⟩,
              ⟨"A", none, Mat4.identity⟩], [], none⟩

lemma c3_step1 : connectStep c3ctx c3arma [] [] "C" = (c3arma1, [("B", "B")], [], ["B"]) := by
  simp [connectStep, collectCollision, findParentNames, findParentFromNif, findParentFromSkel,
    add_bone_to_arma, addBoneMat, calc_skin_transform, c3ctx, c3arma, c3nif, c3nodeA, c3nodeB,
    c3nodeC, c3arma1, Armature.findBone, Armature.hasBone, Armature.addBone, Armature.setParent,
    NifFile.findNode, NifFile.getNodeXformToGlobal, ImportCtx.nif_name, ImportCtx.blender_name,
    List.find?, apply_scale_transl_identity, mul_identity_left]

lemma c3_step2 :
    connectStep c3ctx c3arma1 [("B", "B")] [] "B" = (c3arma2, [("B", "B"), ("A", "A")], [], ["A"]) := by
  simp [connectStep, collectCollision, findParentNames, findParentFromNif, findParentFromSkel,
    add_bone_to_arma, addBoneMat, calc_skin_transform, c3ctx, c3arma1, c3nif, c3nodeA, c3nodeB,
    c3nodeC, c3arma2, Armature.findBone, Armature.hasBone, Armature.addBone, Armature.setParent,
    NifFile.findNode, NifFile.getNodeXformToGlobal, ImportCtx.nif_name, ImportCtx.blender_name,
    List.find?, apply_scale_transl_identity, mul_identity_left]

lemma c3_step3 :
    connectStep c3ctx c3arma2 [("B", "B"), ("A", "A")] [] "A" =
      (c3arma2, [("B", "B"), ("A", "A")], [], []) := by
  simp [connectStep, collectCollision, findParentNames, findParentFromNif, findParentFromSkel,
    c3ctx, c3arma2, c3nif, c3nodeA, c3nodeB, c3nodeC, Armature.findBone,
    NifFile.findNode, ImportCtx.nif_name, ImportCtx.blender_name, List.find?]

lemma c3_poses : set_all_bone_poses c3ctx c3arma2 c3ctx.nif = c3arma2 := by
  simp [set_all_bone_poses, set_bone_poses, sbpStep, c3arma2, c3ctx, c3nif, c3nodeA, c3nodeB,
    c3nodeC, NifFile.findNode, List.find?, Armature.hasPose, Armature.findPose,
    ImportCtx.nif_name]

lemma c3_run :
    connect_armature c3ctx c3arma = some (c3arma2, [("B", "B"), ("A", "A")], []) := by
  unfold connect_armature
  have hst0 : c3arma.bones.map EditBone.name = ["C"] := by simp [c3arma]
  rw [hst0]
  dsimp only
  have hm : connectMeasure c3ctx ⟨c3arma, ["C"], [], []⟩ + 1 = 5 := by
    simp [connectMeasure, parentNameUniverse, c3ctx, c3nif, c3nodeA, c3nodeB, c3nodeC, c3arma,
      Armature.hasBone, Armature.findBone, List.find?, ImportCtx.blender_name]
  rw [hm]
  have hs1 : connectLoop c3ctx 5 ⟨c3arma, ["C"], [], []⟩ =
      connectLoop c3ctx 4 ⟨c3arma1, ["B"], [("B", "B")], []⟩ := by
    rw [show (5 : Nat) = 4 + 1 from rfl, connectLoop_succ]
    simp only [c3_step1, List.nil_append]
  have hs2 : connectLoop c3ctx 4 ⟨c3arma1, ["B"], [("B", "B")], []⟩ =
      connectLoop c3ctx 3 ⟨c3arma2, ["A"], [("B", "B"), ("A", "A")], []⟩ := by
    rw [show (4 : Nat) = 3 + 1 from rfl, connectLoop_succ]
    simp only [c3_step2, List.nil_append]
  have hs3 : connectLoop c3ctx 3 ⟨c3arma2, ["A"], [("B", "B"), ("A", "A")], []⟩ =
      connectLoop c3ctx 2 ⟨c3arma2, [], [("B", "B"), ("A", "A")], []⟩ := by
    rw [show (3 : Nat) = 2 + 1 from rfl, connectLoop_succ]
    simp only [c3_step3, List.append_nil, List.nil_append]
  have hs4 : connectLoop c3ctx 2 ⟨c3arma2, [], [("B", "B"), ("A", "A")], []⟩ =
      some ⟨c3arma2, [], [("B", "B"), ("A", "A")], []⟩ := by
    rw [show (2 : Nat) = 1 + 1 from rfl, connectLoop_succ]
  rw [hs1, hs2, hs3, hs4]
  simp [c3_poses]

/-- C3 counterexample: in the chain Root -> A -> B -> C with only C in
the armature, both B and A are newly created in one pass and B's parent
is A, yet B (the child) is created strictly BEFORE A: `new_bones`
records B at index 0 and A at index 1 -- creation is bottom-up, not
top-down as claimed. -/
theorem connect_armature_topdown_cex :
    connect_armature c3ctx c3arma = some (c3arma2, [("B", "B"), ("A", "A")], []) ∧
    c3arma2.findBone "B" = some ⟨"B", some "A", Mat4.identity⟩ ∧
    [("B", "B"), ("A", "A")].indexOf ("B", "B") <
      [("B", "B"), ("A", "A")].indexOf ("A", "A") :=
  ⟨c3_run, by simp [c3arma2, Armature.findBone, List.find?], by decide⟩

/-- Witness for the C3 amended theorem at the chain input. -/
theorem connect_armature_parent_on_demand_witness :
    ((c3arma.bones.map EditBone.name).Nodup ∧
      connect_armature c3ctx c3arma = some (c3arma2, [("B", "B"), ("A", "A")], [])) ∧
    (∀ p ∈ [("B", "B"), ("A", "A")],
      ∃ b ∈ c3arma2.bones, b.parent = some p.2 ∧ b.name ≠ p.2) :=
  ⟨⟨by simp [c3arma], c3_run⟩,
   connect_armature_parent_on_demand c3ctx c3arma
     (c3arma2, [("B", "B"), ("A", "A")], []) (by simp [c3arma]) c3_run⟩

/-! Concrete cyclic run for C4: A and B parent each other in the nif. -/

def c4nodeA : NifNode := ⟨"A", "NiNode", some "B", Mat4.identity, false⟩

def c4nodeB : NifNode := ⟨"B", "NiNode", some "A", Mat4.identity, false⟩

def c4nif : NifFile := ⟨[c4nodeA, c4nodeB], "Root", "SKYRIM"⟩

def c4ctx : ImportCtx :=
  ⟨1, false, false, none, c4nif, id, id, fun _ => Mat4.identity,
   fun _ => Mat4.identity, fun m _ _ => m, fun _ => false⟩

def c4arma : Armature := ⟨"c4arma", [⟨"A", none, Mat4.identity⟩], [], none⟩

def c4arma1 : Armature :=
  ⟨"c4arma", [⟨"A", some "B", Mat4.identity⟩, ⟨"B", none, Mat4.identity⟩], [], none⟩

def c4armaF : Armature :=
  ⟨"c4arma", [⟨"A", some "B", Mat4.identity⟩, ⟨"B", some "A", Mat4.identity⟩], [], none⟩

lemma c4_step1 : connectStep c4ctx c4arma [] [] "A" = (c4arma1, [("B", "B")], [], ["B"]) := by
  simp [connectStep, collectCollision, findParentNames, findParentFromNif, findParentFromSkel,
    add_bone_to_arma, addBoneMat, calc_skin_transform, c4ctx, c4arma, c4nif, c4nodeA, c4nodeB,
    c4arma1, Armature.findBone, Armature.hasBone, Armature.addBone, Armature.setParent,
    NifFile.findNode, NifFile.getNodeXformToGlobal, ImportCtx.nif_name, ImportCtx.blender_name,
    List.find?, apply_scale_transl_identity, mul_identity_left]

lemma c4_step2 :
    connectStep c4ctx c4arma1 [("B", "B")] [] "B" = (c4armaF, [("B", "B")], [], []) := by
  simp [connectStep, collectCollision, findParentNames, findParentFromNif, findParentFromSkel,
    c4ctx, c4arma1, c4nif, c4nodeA, c4nodeB, c4armaF, Armature.findBone, Armature.hasBone,
    Armature.setParent, NifFile.findNode, ImportCtx.nif_name, ImportCtx.blender_name, List.find?]

lemma c4_poses : set_all_bone_poses c4ctx c4armaF c4ctx.nif = c4armaF := by
  simp [set_all_bone_poses, set_bone_poses, sbpStep, c4armaF, c4ctx, c4nif, c4nodeA, c4nodeB,
    NifFile.findNode, List.find?, Armature.hasPose, Armature.findPose, ImportCtx.nif_name]

lemma c4_run : connect_armature c4ctx c4arma = some (c4armaF, [("B", "B")], []) := by
  unfold connect_armature
  have hst0 : c4arma.bones.map EditBone.name = ["A"] := by simp [c4arma]
  rw [hst0]
  dsimp only
  have hm : connectMeasure c4ctx ⟨c4arma, ["A"], [], []⟩ + 1 = 3 := by
    simp [connectMeasure, parentNameUniverse, c4ctx, c4nif, c4nodeA, c4nodeB, c4arma,
      Armature.hasBone, Armature.findBone, List.find?, ImportCtx.blender_name]
  rw [hm]
  have hs1 : connectLoop c4ctx 3 ⟨c4arma, ["A"], [], []⟩ =
      connectLoop c4ctx 2 ⟨c4arma1, ["B"], [("B", "B")], []⟩ := by
    rw [show (3 : Nat) = 2 + 1 from rfl, connectLoop_succ]
    simp only [c4_step1, List.nil_append]
  have hs2 : connectLoop c4ctx 2 ⟨c4arma1, ["B"], [("B", "B")], []⟩ =
      connectLoop c4ctx 1 ⟨c4armaF, [], [("B", "B")], []⟩ := by
    rw [show (2 : Nat) = 1 + 1 from rfl, connectLoop_succ]
    simp only [c4_step2, List.append_nil, List.nil_append]
  have hs3 : connectLoop c4ctx 1 ⟨c4armaF, [], [("B", "B")], []⟩ =
      some ⟨c4armaF, [], [("B", "B")], []⟩ := by
    rw [show (1 : Nat) = 0 + 1 from rfl, connectLoop_succ]
  rw [hs1, hs2, hs3]
  simp [c4_poses]

/-- C4 counterexample: with A's parent B and B's parent A in the source,
`connect_armature` terminates and returns a normal result -- there is no
CyclicHierarchy error (the function has no error output and no visited
set) -- and the cycle is silently linked into the armature: A's parent
becomes B and B's parent becomes A. -/
theorem connect_armature_cycle_cex :
    connect_armature c4ctx c4arma = some (c4armaF, [("B", "B")], []) ∧
    c4armaF.findBone "A" = some ⟨"A", some "B", Mat4.identity⟩ ∧
    c4armaF.findBone "B" = some ⟨"B", some "A", Mat4.identity⟩ :=
  ⟨c4_run, by simp [c4armaF, Armature.findBone, List.find?],
   by simp [c4armaF, Armature.findBone, List.find?]⟩

end PyNifly
